import Mathlib

/-!
Verification development for the `RoomsSDKAdapter` of the component-adapter
repository.  The adapter (source file `src/RoomsSDKAdapter.js`) multiplexes
many observers onto one underlying SDK subscription per room id:

* `startListeningToRoomUpdates` / `stopListeningToRoomUpdates` form a
  reference-counted gate around the SDK's `rooms.listen` / `rooms.stopListening`
  calls (`listenerCount`, initialized 0);
* `getRoom(ID)` builds, per id, a `concat(from(fetchRoom(ID)), roomUpdate$)`
  stream piped through `finalize` and `publishReplay(1) + refCount`, cached in
  `getRoomObservables`;
* `getRoomActivities(ID)` keeps, per id, a `BehaviorSubject` fed by a
  permanently registered mercury `event:conversation.activity` handler, cached
  in `getRoomActivitiesCache`.

The development embeds this as an explicit event-driven state machine (the
source runs on a single-threaded event loop; every observable callback is a
synchronous step).  Calls into the external data source are recorded in a call
log so that "exactly one fetch", "listen before stop", etc. become statements
about the log.
-/

/-- A room snapshot in adapter shape, as built by `fetchRoom`:
`{ID: id, title, type}`. -/
structure Room where
  ID : String
  title : String
  type : String
deriving DecidableEq, Repr

/-- The raw room object returned by the SDK's `rooms.get`: `{id, title, type}`. -/
structure SDKRoom where
  id : String
  title : String
  type : String
deriving DecidableEq, Repr

/-- The reshaping done by `fetchRoom` on the resolved SDK value
(`const {id, title, type} = await this.datasource.rooms.get(ID)`). -/
def fetchRoom (r : SDKRoom) : Room :=
  { ID := r.id, title := r.title, type := r.type }

/-- One recorded invocation on the gate or the data source:
`acquire`/`release` are calls to `startListeningToRoomUpdates` /
`stopListeningToRoomUpdates`; `listen`/`stopListen` are the SDK calls
`rooms.listen()` / `rooms.stopListening()`; `fetch id` is an invocation of
`fetchRoom(id)` (that is, of `datasource.rooms.get`). -/
inductive CallKind where
  | acquire
  | release
  | listen
  | stopListen
  | fetch (id : String)
deriving DecidableEq, Repr

/-- The gate state: the adapter's `listenerCount` field together with the
chronological call log (most recent call first). -/
structure CallLog where
  listenerCount : Int
  calls : List CallKind
deriving DecidableEq, Repr

/-- `startListeningToRoomUpdates`: if `listenerCount === 0` call
`rooms.listen()`, then `listenerCount += 1`.  The invocation itself is recorded
as `acquire`. -/
def startListeningToRoomUpdates (g : CallLog) : CallLog :=
  let withAcq := CallKind.acquire :: g.calls
  let withListen :=
    if g.listenerCount = 0 then CallKind.listen :: withAcq else withAcq
  { listenerCount := g.listenerCount + 1, calls := withListen }

/-- `stopListeningToRoomUpdates`: `listenerCount -= 1`, then if
`listenerCount <= 0` call `rooms.stopListening()`.  The invocation itself is
recorded as `release`.  Note the source performs no clamping of the counter. -/
def stopListeningToRoomUpdates (g : CallLog) : CallLog :=
  let c := g.listenerCount - 1
  let withRel := CallKind.release :: g.calls
  let withStop := if c ≤ 0 then CallKind.stopListen :: withRel else withRel
  { listenerCount := c, calls := withStop }

/-- An abstract call to the gate from outside. -/
inductive GateEvent where
  | acquire
  | release
deriving DecidableEq, Repr

/-- One gate call dispatched to the corresponding adapter method. -/
def gateStep (g : CallLog) : GateEvent → CallLog
  | GateEvent.acquire => startListeningToRoomUpdates g
  | GateEvent.release => stopListeningToRoomUpdates g

/-- Run a finite sequence of gate calls from the initial state
(`listenerCount = 0`, empty log). -/
def runGate (evs : List GateEvent) : CallLog :=
  evs.foldl gateStep { listenerCount := 0, calls := [] }

/-- Number of `acquire` events in a gate call sequence. -/
def countAcq : List GateEvent → Nat
  | [] => 0
  | GateEvent.acquire :: r => countAcq r + 1
  | GateEvent.release :: r => countAcq r

/-- Number of `release` events in a gate call sequence. -/
def countRel : List GateEvent → Nat
  | [] => 0
  | GateEvent.release :: r => countRel r + 1
  | GateEvent.acquire :: r => countRel r

/-- The subsequence of SDK-level calls (`listen` / `stopListen`) of a call
log. -/
def sdkOnly : List CallKind → List CallKind
  | [] => []
  | CallKind.listen :: rest => CallKind.listen :: sdkOnly rest
  | CallKind.stopListen :: rest => CallKind.stopListen :: sdkOnly rest
  | CallKind.acquire :: rest => sdkOnly rest
  | CallKind.release :: rest => sdkOnly rest
  | CallKind.fetch _ :: rest => sdkOnly rest

/-- `true` iff the list never contains two adjacent `listen` entries, i.e.
`listen` is never recorded twice without an intervening entry. -/
def noDoubleListen : List CallKind → Bool
  | CallKind.listen :: CallKind.listen :: _ => false
  | _ :: rest => noDoubleListen rest
  | [] => true

/-- `true` iff the head of the list is a `listen` call. -/
def headIsListen : List CallKind → Bool
  | CallKind.listen :: _ => true
  | _ => false

lemma start_count (g : CallLog) :
    (startListeningToRoomUpdates g).listenerCount = g.listenerCount + 1 := rfl

lemma start_calls (g : CallLog) :
    (startListeningToRoomUpdates g).calls
      = if g.listenerCount = 0
          then CallKind.listen :: CallKind.acquire :: g.calls
          else CallKind.acquire :: g.calls := rfl

lemma stop_count (g : CallLog) :
    (stopListeningToRoomUpdates g).listenerCount = g.listenerCount - 1 := rfl

lemma stop_calls (g : CallLog) :
    (stopListeningToRoomUpdates g).calls
      = if g.listenerCount - 1 ≤ 0
          then CallKind.stopListen :: CallKind.release :: g.calls
          else CallKind.release :: g.calls := rfl

lemma countAcq_cons_acquire (r : List GateEvent) :
    countAcq (GateEvent.acquire :: r) = countAcq r + 1 := rfl

lemma countAcq_cons_release (r : List GateEvent) :
    countAcq (GateEvent.release :: r) = countAcq r := rfl

lemma countRel_cons_acquire (r : List GateEvent) :
    countRel (GateEvent.acquire :: r) = countRel r := rfl

lemma countRel_cons_release (r : List GateEvent) :
    countRel (GateEvent.release :: r) = countRel r + 1 := rfl

lemma sdkOnly_acquire (l : List CallKind) :
    sdkOnly (CallKind.acquire :: l) = sdkOnly l := rfl

lemma sdkOnly_release (l : List CallKind) :
    sdkOnly (CallKind.release :: l) = sdkOnly l := rfl

lemma sdkOnly_listen (l : List CallKind) :
    sdkOnly (CallKind.listen :: l) = CallKind.listen :: sdkOnly l := rfl

lemma sdkOnly_stopListen (l : List CallKind) :
    sdkOnly (CallKind.stopListen :: l) = CallKind.stopListen :: sdkOnly l := rfl

lemma noDoubleListen_cons_stopListen (l : List CallKind) :
    noDoubleListen (CallKind.stopListen :: l) = noDoubleListen l := by
  cases l with
  | nil => rfl
  | cons a rest => rfl

lemma noDoubleListen_cons_listen (l : List CallKind)
    (h : headIsListen l = false) :
    noDoubleListen (CallKind.listen :: l) = noDoubleListen l := by
  cases l with
  | nil => rfl
  | cons a rest =>
    cases a with
    | listen => simp [headIsListen] at h
    | acquire => rfl
    | release => rfl
    | stopListen => rfl
    | fetch id => rfl

/-- Inductive invariant of the gate: the SDK-call subsequence of the log has no
two adjacent `listen` calls, and whenever the most recent SDK call is `listen`
the counter is at least 1. -/
def GateInv (g : CallLog) : Prop :=
  noDoubleListen (sdkOnly g.calls) = true ∧
    (headIsListen (sdkOnly g.calls) = true → 1 ≤ g.listenerCount)

lemma gateStep_inv (g : CallLog) (e : GateEvent) (h : GateInv g) :
    GateInv (gateStep g e) := by
  obtain ⟨h1, h2⟩ := h
  cases e with
  | acquire =>
    show GateInv (startListeningToRoomUpdates g)
    by_cases hc : g.listenerCount = 0
    · have hnl : headIsListen (sdkOnly g.calls) = false := by
        by_contra hfalse
        have hx : headIsListen (sdkOnly g.calls) = true := by
          cases hx : headIsListen (sdkOnly g.calls)
          · exact absurd hx hfalse
          · rfl
        have := h2 hx
        omega
      constructor
      · rw [start_calls, if_pos hc, sdkOnly_listen, sdkOnly_acquire,
          noDoubleListen_cons_listen _ hnl]
        exact h1
      · intro _
        rw [start_count]
        omega
    · constructor
      · rw [start_calls, if_neg hc, sdkOnly_acquire]
        exact h1
      · intro hh
        rw [start_calls, if_neg hc, sdkOnly_acquire] at hh
        have := h2 hh
        rw [start_count]
        omega
  | release =>
    show GateInv (stopListeningToRoomUpdates g)
    by_cases hc : g.listenerCount - 1 ≤ 0
    · constructor
      · rw [stop_calls, if_pos hc, sdkOnly_stopListen, sdkOnly_release,
          noDoubleListen_cons_stopListen]
        exact h1
      · intro hh
        rw [stop_calls, if_pos hc, sdkOnly_stopListen] at hh
        simp [headIsListen] at hh
    · constructor
      · rw [stop_calls, if_neg hc, sdkOnly_release]
        exact h1
      · intro _
        rw [stop_count]
        omega

lemma foldl_gateStep_inv (evs : List GateEvent) :
    ∀ g : CallLog, GateInv g → GateInv (evs.foldl gateStep g) := by
  induction evs with
  | nil => intro g h; exact h
  | cons e rest ih =>
    intro g h
    exact ih (gateStep g e) (gateStep_inv g e h)

lemma foldl_gateStep_count (evs : List GateEvent) :
    ∀ g : CallLog,
      (evs.foldl gateStep g).listenerCount
        = g.listenerCount + (countAcq evs : Int) - (countRel evs : Int) := by
  induction evs with
  | nil => intro g; simp [countAcq, countRel]
  | cons e rest ih =>
    intro g
    cases e with
    | acquire =>
      simp only [List.foldl_cons, gateStep, countAcq_cons_acquire,
        countRel_cons_acquire]
      rw [ih, start_count]
      push_cast
      ring
    | release =>
      simp only [List.foldl_cons, gateStep, countAcq_cons_release,
        countRel_cons_release]
      rw [ih, stop_count]
      push_cast
      ring

/-- C4 counterexample: a single `release` from the initial state drives the
counter to `-1`; the source performs no clamping, so the claim "the counter is
never negative" is false for sequences with a release beyond zero. -/
theorem listenerCount_negative_after_lone_release :
    (runGate [GateEvent.release]).listenerCount = -1 := by decide

/-- C4 (amended): the counter starts at 0, each acquire increments it and each
release decrements it with no clamping, so it always equals the number of
acquires minus the number of releases; consequently it is never negative
exactly when no prefix of the call sequence contains more releases than
acquires (which balanced adapter usage guarantees), while a release beyond
zero drives it negative. -/
theorem listenerCount_eq_acquires_sub_releases (evs : List GateEvent)
    (hbal : ∀ n, n ≤ evs.length →
      countRel (evs.take n) ≤ countAcq (evs.take n)) :
    (runGate evs).listenerCount = (countAcq evs : Int) - (countRel evs : Int) ∧
      0 ≤ (runGate evs).listenerCount := by
  have hcount := foldl_gateStep_count evs { listenerCount := 0, calls := [] }
  have hzero : ({ listenerCount := 0, calls := [] } : CallLog).listenerCount = 0 := rfl
  rw [hzero] at hcount
  constructor
  · unfold runGate
    rw [hcount]
    ring
  · unfold runGate
    rw [hcount]
    have := hbal evs.length (le_refl _)
    rw [List.take_length] at this
    omega

/-- Witness for the amended C4 theorem at the concrete balanced sequence
`[acquire, release, acquire]`. -/
theorem listenerCount_eq_acquires_sub_releases_witness :
    (runGate [GateEvent.acquire, GateEvent.release, GateEvent.acquire]).listenerCount
        = (countAcq [GateEvent.acquire, GateEvent.release, GateEvent.acquire] : Int)
          - (countRel [GateEvent.acquire, GateEvent.release, GateEvent.acquire] : Int) ∧
      0 ≤ (runGate [GateEvent.acquire, GateEvent.release, GateEvent.acquire]).listenerCount :=
  listenerCount_eq_acquires_sub_releases
    [GateEvent.acquire, GateEvent.release, GateEvent.acquire] (by decide)

/-- C5: for every finite sequence of acquire/release calls from the initial
state (including releases beyond zero), the SDK's `rooms.listen` is never
invoked twice without an intervening `rooms.stopListening`: the SDK-call
subsequence of the log never has two adjacent `listen` entries. -/
theorem listen_never_doubled (evs : List GateEvent) :
    noDoubleListen (sdkOnly (runGate evs).calls) = true := by
  have h := foldl_gateStep_inv evs { listenerCount := 0, calls := [] }
    (by constructor
        · rfl
        · intro h
          simp [sdkOnly, headIsListen] at h)
  exact h.1

/-!
## The `getRoom` multicast stream machine

`getRoom(ID)` is embedded as an explicit state machine.  The source runs on a
single-threaded event loop, so each observable callback (a promise resolution,
a websocket event, a subscribe or an unsubscribe) is one atomic step.

Modelling of the RxJS pipeline `concat(from(fetchRoom(ID)), roomUpdate$)
|> tap |> finalize |> publishReplay(1) |> refCount`:

* the promise `this.fetchRoom(ID)` is created eagerly inside `getRoom` (so the
  fetch call is recorded at `getRoom` time), while its value is delivered by a
  later `fetchResolve`/`fetchReject` step;
* `refCount` connects the underlying `concat` on the first subscription
  (`connected`), and `finalize` (gate release + cache eviction) runs when the
  observer count returns to zero or when the stream errors;
* `publishReplay(1)` is the `replay` buffer: a new subscriber synchronously
  receives the buffered latest value before anything else;
* `concat` subscribes `roomUpdate$` (the `fromEvent` + `filter` + `flatMap`
  chain) only after the initial fetch has emitted and completed: `phase` moves
  from `fetching` to `live` at that moment;
* each `flatMap` re-fetch is recorded when the matching update event arrives
  and its value is delivered by a later `refetchResolve` step.

The fields `used` and `beforeFirst` are history variables (pure
instrumentation, never read by the transition functions): `used` records every
token that ever subscribed, `beforeFirst` the tokens whose subscription
attached before the first snapshot of its entry generation was produced.
-/

/-- Whether a snapshot came from the initial fetch (`room$`) or from a
re-fetch triggered by an update event (`roomUpdate$`). -/
inductive Origin where
  | initial
  | update
deriving DecidableEq, Repr

/-- A snapshot flowing through the `getRoom` pipeline, tagged with its
origin. -/
structure Snap where
  origin : Origin
  room : Room
deriving DecidableEq, Repr

/-- One notification delivered to a subscriber. -/
inductive Delivery where
  | value (s : Snap)
  | error
deriving DecidableEq, Repr

/-- An active subscription: its token and whether it attached before the
first snapshot of its entry generation was produced (history flag). -/
structure Obs where
  tok : Nat
  joinedBeforeFirst : Bool
deriving DecidableEq, Repr

/-- Which source of the `concat` is currently subscribed. -/
inductive Phase where
  | fetching
  | live
deriving DecidableEq, Repr

/-- The state of the eagerly started `fetchRoom` promise while nobody is
connected yet. -/
inductive FetchOutcome where
  | ok (r : SDKRoom)
  | failed
deriving DecidableEq, Repr

/-- One cached entry of `getRoomObservables`. -/
structure RoomEntry where
  phase : Phase
  connected : Bool
  observers : List Obs
  replay : Option Snap
  fetchResult : Option FetchOutcome
  pendingRefetches : Nat
deriving DecidableEq, Repr

/-- Whole-adapter state: the gate, the `getRoomObservables` cache (an
association list keyed by room id), the log of notifications delivered to
subscribers (most recent first), and the two history variables. -/
structure AdapterState where
  gate : CallLog
  rooms : List (String × RoomEntry)
  deliveries : List (Nat × Delivery)
  used : List Nat
  beforeFirst : List Nat
deriving DecidableEq, Repr

/-- Lookup in an association list keyed by strings. -/
def alistLookup {α : Type} : List (String × α) → String → Option α
  | [], _ => none
  | p :: rest, id => if p.1 = id then some p.2 else alistLookup rest id

/-- Replace the (first) binding of a key in an association list. -/
def alistSet {α : Type} : List (String × α) → String → α → List (String × α)
  | [], _, _ => []
  | p :: rest, id, v =>
    if p.1 = id then (id, v) :: rest else p :: alistSet rest id v

/-- Remove the (first) binding of a key from an association list. -/
def alistDelete {α : Type} : List (String × α) → String → List (String × α)
  | [], _ => []
  | p :: rest, id => if p.1 = id then rest else p :: alistDelete rest id

/-- Deliver notification `d` to every currently attached observer (the
multicast subject's fan-out). -/
def deliverAll (obs : List Obs) (d : Delivery) (ds : List (Nat × Delivery)) :
    List (Nat × Delivery) :=
  (obs.map fun o => (o.tok, d)) ++ ds

/-- A raw `updated` room event: `data` may be absent, and `data.id` may be
absent. -/
structure RawRef where
  id : Option String
deriving DecidableEq, Repr

/-- Payload of the SDK's room `updated` event. -/
structure RawRoomEvent where
  data : Option RawRef
deriving DecidableEq, Repr

/-- External events driving the `getRoom` machine. -/
inductive Ev where
  | getRoomCall (id : String)
  | subscribe (id : String) (tok : Nat)
  | unsubscribe (id : String) (tok : Nat)
  | fetchResolve (id : String) (r : SDKRoom)
  | fetchReject (id : String)
  | roomUpdated (e : RawRoomEvent)
  | refetchResolve (id : String) (r : SDKRoom)
deriving DecidableEq, Repr

/-- The `finalize` callback of the pipeline: release the gate
(`stopListeningToRoomUpdates`) and evict the cache entry
(`delete this.getRoomObservables[ID]`). -/
def finalizeEntry (s : AdapterState) (id : String) : AdapterState :=
  { s with gate := stopListeningToRoomUpdates s.gate,
           rooms := alistDelete s.rooms id }

/-- `getRoom(ID)`: on a cache hit return the cached multicast observable
unchanged; on a miss call `startListeningToRoomUpdates`, start the
`fetchRoom(ID)` promise (recorded as a fetch call), and cache a fresh
not-yet-connected entry. -/
def stepGetRoom (s : AdapterState) (id : String) : AdapterState :=
  match alistLookup s.rooms id with
  | some _ => s
  | none =>
    let g1 := startListeningToRoomUpdates s.gate
    let g2 := { g1 with calls := CallKind.fetch id :: g1.calls }
    { s with gate := g2,
             rooms := (id, { phase := Phase.fetching, connected := false,
                             observers := [], replay := none,
                             fetchResult := none, pendingRefetches := 0 })
                        :: s.rooms }

/-- `refCount` connecting the underlying `concat` on the first subscription:
`from(promise)` emits the already-settled promise value if there is one
(initial snapshot into the replay buffer and out to the attached observers,
then `concat` switches to `roomUpdate$`; or an error, which runs `finalize`),
otherwise the entry stays in the fetching phase. -/
def connectEntry (s : AdapterState) (id : String) : AdapterState :=
  match alistLookup s.rooms id with
  | none => s
  | some e =>
    match e.fetchResult with
    | none =>
      { s with rooms := alistSet s.rooms id { e with connected := true } }
    | some (FetchOutcome.ok r) =>
      let snap : Snap := { origin := Origin.initial, room := fetchRoom r }
      { s with
          rooms :=
            alistSet s.rooms id
              { e with connected := true, phase := Phase.live,
                       replay := some snap, fetchResult := none },
          deliveries :=
            deliverAll e.observers (Delivery.value snap) s.deliveries }
    | some FetchOutcome.failed =>
      finalizeEntry
        { s with
            deliveries := deliverAll e.observers Delivery.error s.deliveries }
        id

/-- A subscription to the cached multicast observable: the new subscriber
first synchronously receives the `publishReplay(1)` buffer, is added to the
observer set, and then `refCount` connects the source if this is the first
subscription. -/
def stepSubscribe (s : AdapterState) (id : String) (tok : Nat) : AdapterState :=
  match alistLookup s.rooms id with
  | none => s
  | some e =>
    let flag := e.replay.isNone
    let ds1 := match e.replay with
      | some v => (tok, Delivery.value v) :: s.deliveries
      | none => s.deliveries
    let e1 := { e with observers := { tok := tok, joinedBeforeFirst := flag }
                  :: e.observers }
    let s1 := { s with deliveries := ds1,
                       rooms := alistSet s.rooms id e1,
                       used := tok :: s.used,
                       beforeFirst :=
                         if flag then tok :: s.beforeFirst else s.beforeFirst }
    if e1.connected then s1 else connectEntry s1 id

/-- An observer unsubscribes: it is removed from the observer set, and when
the count reaches zero `refCount` disconnects the source, which runs
`finalize` (gate release + cache eviction). -/
def stepUnsubscribe (s : AdapterState) (id : String) (tok : Nat) :
    AdapterState :=
  match alistLookup s.rooms id with
  | none => s
  | some e =>
    if tok ∈ e.observers.map Obs.tok then
      let remaining := e.observers.filter fun o => !decide (o.tok = tok)
      if remaining.isEmpty && e.connected then finalizeEntry s id
      else { s with rooms := alistSet s.rooms id { e with observers := remaining } }
    else s

/-- The `fetchRoom(ID)` promise resolves with raw SDK data `r`: if someone is
connected, `from(promise)` emits the reshaped initial snapshot (replay buffer
and fan-out) and `concat` switches to `roomUpdate$`; otherwise the settled
value is held by the promise until connection. -/
def stepFetchResolve (s : AdapterState) (id : String) (r : SDKRoom) :
    AdapterState :=
  match alistLookup s.rooms id with
  | none => s
  | some e =>
    if e.phase = Phase.fetching then
      if e.connected then
        let snap : Snap := { origin := Origin.initial, room := fetchRoom r }
        { s with
            rooms :=
              alistSet s.rooms id
                { e with phase := Phase.live, replay := some snap },
            deliveries :=
              deliverAll e.observers (Delivery.value snap) s.deliveries }
      else
        { s with
            rooms :=
              alistSet s.rooms id
                { e with fetchResult := some (FetchOutcome.ok r) } }
    else s

/-- The `fetchRoom(ID)` promise rejects: if someone is connected the stream
errors (error notification to every attached observer) and `finalize` runs
(gate release + cache eviction); otherwise the rejection is held by the
promise until connection. -/
def stepFetchReject (s : AdapterState) (id : String) : AdapterState :=
  match alistLookup s.rooms id with
  | none => s
  | some e =>
    if e.phase = Phase.fetching then
      if e.connected then
        finalizeEntry
          { s with
              deliveries :=
                deliverAll e.observers Delivery.error s.deliveries }
          id
      else
        { s with
            rooms :=
              alistSet s.rooms id
                { e with fetchResult := some FetchOutcome.failed } }
    else s

/-- Dispatch of one SDK `updated` room event to every per-entry `fromEvent`
handler (only entries whose `concat` has reached `roomUpdate$` are
subscribed).  The `filter` predicate evaluates `event.data.id === ID`: if
`data` is absent this throws, erroring that entry's stream (error to its
observers, `finalize`: gate release, cache eviction); if `data.id` matches the
entry's id, `flatMap` starts `fetchRoom(ID)` (a recorded fetch call with a
pending resolution); otherwise the event is filtered out.  Returns the
surviving entries together with the updated gate and delivery log. -/
def roomUpdatedFold (ev : RawRoomEvent) :
    List (String × RoomEntry) → CallLog → List (Nat × Delivery) →
      List (String × RoomEntry) × CallLog × List (Nat × Delivery)
  | [], g, ds => ([], g, ds)
  | (id, e) :: rest, g, ds =>
    if e.connected = true ∧ e.phase = Phase.live then
      match ev.data with
      | none =>
        let ds1 := deliverAll e.observers Delivery.error ds
        let g1 := stopListeningToRoomUpdates g
        roomUpdatedFold ev rest g1 ds1
      | some ref =>
        if ref.id = some id then
          let g1 := { g with calls := CallKind.fetch id :: g.calls }
          let r := roomUpdatedFold ev rest g1 ds
          ((id, { e with pendingRefetches := e.pendingRefetches + 1 }) :: r.1,
            r.2.1, r.2.2)
        else
          let r := roomUpdatedFold ev rest g ds
          ((id, e) :: r.1, r.2.1, r.2.2)
    else
      let r := roomUpdatedFold ev rest g ds
      ((id, e) :: r.1, r.2.1, r.2.2)

/-- One SDK `updated` room event arrives. -/
def stepRoomUpdated (s : AdapterState) (ev : RawRoomEvent) : AdapterState :=
  let r := roomUpdatedFold ev s.rooms s.gate s.deliveries
  { s with rooms := r.1, gate := r.2.1, deliveries := r.2.2 }

/-- A `flatMap` re-fetch promise resolves: the update-derived snapshot goes
into the replay buffer and out to every attached observer. -/
def stepRefetchResolve (s : AdapterState) (id : String) (r : SDKRoom) :
    AdapterState :=
  match alistLookup s.rooms id with
  | none => s
  | some e =>
    if e.phase = Phase.live ∧ 0 < e.pendingRefetches then
      let snap : Snap := { origin := Origin.update, room := fetchRoom r }
      { s with rooms := alistSet s.rooms id
                 { e with replay := some snap,
                          pendingRefetches := e.pendingRefetches - 1 },
               deliveries := deliverAll e.observers (Delivery.value snap)
                 s.deliveries }
    else s

/-- One machine step. -/
def step (s : AdapterState) : Ev → AdapterState
  | Ev.getRoomCall id => stepGetRoom s id
  | Ev.subscribe id tok => stepSubscribe s id tok
  | Ev.unsubscribe id tok => stepUnsubscribe s id tok
  | Ev.fetchResolve id r => stepFetchResolve s id r
  | Ev.fetchReject id => stepFetchReject s id
  | Ev.roomUpdated ev => stepRoomUpdated s ev
  | Ev.refetchResolve id r => stepRefetchResolve s id r

/-- The initial adapter state (fresh constructor: empty caches, counter 0). -/
def initState : AdapterState :=
  { gate := { listenerCount := 0, calls := [] },
    rooms := [], deliveries := [], used := [], beforeFirst := [] }

/-- Run a list of events from a given state. -/
def runFrom (s : AdapterState) (evs : List Ev) : AdapterState :=
  evs.foldl step s

/-- Run a list of events from the initial state. -/
def run (evs : List Ev) : AdapterState :=
  runFrom initState evs

/-- Count of `fetch id` calls for a given id in a call log. -/
def countFetches (id : String) : List CallKind → Nat
  | [] => 0
  | CallKind.fetch j :: rest =>
    (if j = id then 1 else 0) + countFetches id rest
  | CallKind.acquire :: rest => countFetches id rest
  | CallKind.release :: rest => countFetches id rest
  | CallKind.listen :: rest => countFetches id rest
  | CallKind.stopListen :: rest => countFetches id rest

/-- Count of `acquire` entries in a call log. -/
def countAcquires : List CallKind → Nat
  | [] => 0
  | CallKind.acquire :: rest => countAcquires rest + 1
  | CallKind.release :: rest => countAcquires rest
  | CallKind.listen :: rest => countAcquires rest
  | CallKind.stopListen :: rest => countAcquires rest
  | CallKind.fetch _ :: rest => countAcquires rest

/-- Count of `release` entries in a call log. -/
def countReleases : List CallKind → Nat
  | [] => 0
  | CallKind.release :: rest => countReleases rest + 1
  | CallKind.acquire :: rest => countReleases rest
  | CallKind.listen :: rest => countReleases rest
  | CallKind.stopListen :: rest => countReleases rest
  | CallKind.fetch _ :: rest => countReleases rest


lemma runFrom_cons (s : AdapterState) (ev : Ev) (evs : List Ev) :
    runFrom s (ev :: evs) = runFrom (step s ev) evs := rfl

lemma runFrom_nil (s : AdapterState) : runFrom s [] = s := rfl

lemma alistLookup_set_self {α : Type} :
    ∀ (rs : List (String × α)) (id : String) (v : α),
      (alistLookup rs id).isSome = true →
      alistLookup (alistSet rs id v) id = some v := by
  intro rs
  induction rs with
  | nil => intro id v h; simp [alistLookup] at h
  | cons p rest ih =>
    intro id v h
    by_cases hp : p.1 = id
    · simp [alistSet, if_pos hp, alistLookup]
    · simp only [alistLookup, if_neg hp] at h
      simp only [alistSet, if_neg hp, alistLookup, if_neg hp]
      exact ih id v h

lemma alistLookup_eq_none_of_not_mem {α : Type} :
    ∀ (rs : List (String × α)) (id : String),
      id ∉ rs.map Prod.fst → alistLookup rs id = none := by
  intro rs
  induction rs with
  | nil => intro id _; rfl
  | cons p rest ih =>
    intro id h
    simp only [List.map_cons, List.mem_cons, not_or] at h
    have hp : ¬ p.1 = id := fun hc => h.1 hc.symm
    simp only [alistLookup, if_neg hp]
    exact ih id h.2

lemma alistLookup_delete_self {α : Type} :
    ∀ (rs : List (String × α)) (id : String),
      (rs.map Prod.fst).Nodup →
      alistLookup (alistDelete rs id) id = none := by
  intro rs
  induction rs with
  | nil => intro id _; rfl
  | cons p rest ih =>
    intro id hnd
    simp only [List.map_cons, List.nodup_cons] at hnd
    by_cases hp : p.1 = id
    · simp only [alistDelete, if_pos hp]
      apply alistLookup_eq_none_of_not_mem
      rw [← hp]
      exact hnd.1
    · simp only [alistDelete, if_neg hp, alistLookup, if_neg hp]
      exact ih id hnd.2

lemma alistSet_alistSet {α : Type} :
    ∀ (rs : List (String × α)) (id : String) (a b : α),
      alistSet (alistSet rs id a) id b = alistSet rs id b := by
  intro rs
  induction rs with
  | nil => intro id a b; rfl
  | cons p rest ih =>
    intro id a b
    by_cases hp : p.1 = id
    · simp [alistSet, if_pos hp]
    · simp only [alistSet, if_neg hp]
      rw [ih]

lemma alistDelete_alistSet {α : Type} :
    ∀ (rs : List (String × α)) (id : String) (a : α),
      alistDelete (alistSet rs id a) id = alistDelete rs id := by
  intro rs
  induction rs with
  | nil => intro id a; rfl
  | cons p rest ih =>
    intro id a
    by_cases hp : p.1 = id
    · simp [alistSet, if_pos hp, alistDelete]
    · simp only [alistSet, if_neg hp, alistDelete, if_neg hp]
      rw [ih]

lemma step_getRoom_hit (s : AdapterState) (id : String) (e : RoomEntry)
    (hl : alistLookup s.rooms id = some e) :
    step s (Ev.getRoomCall id) = s := by
  simp only [step, stepGetRoom, hl]

lemma step_getRoom_miss (s : AdapterState) (id : String)
    (hl : alistLookup s.rooms id = none) :
    step s (Ev.getRoomCall id)
      = { s with
            gate := { listenerCount := (startListeningToRoomUpdates s.gate).listenerCount,
                      calls := CallKind.fetch id
                        :: (startListeningToRoomUpdates s.gate).calls },
            rooms := (id, { phase := Phase.fetching, connected := false,
                            observers := [], replay := none,
                            fetchResult := none, pendingRefetches := 0 })
                       :: s.rooms } := by
  simp only [step, stepGetRoom, hl]

lemma step_subscribe_none (s : AdapterState) (id : String) (tok : Nat)
    (hl : alistLookup s.rooms id = none) :
    step s (Ev.subscribe id tok) = s := by
  simp only [step, stepSubscribe, hl]

lemma step_subscribe_replay_connected (s : AdapterState) (id : String)
    (tok : Nat) (e : RoomEntry) (v : Snap)
    (hl : alistLookup s.rooms id = some e) (hre : e.replay = some v)
    (hc : e.connected = true) :
    step s (Ev.subscribe id tok)
      = { s with
            deliveries := (tok, Delivery.value v) :: s.deliveries,
            rooms := alistSet s.rooms id
              { e with observers := { tok := tok, joinedBeforeFirst := false }
                  :: e.observers },
            used := tok :: s.used } := by
  simp [step, stepSubscribe, hl, hre, hc]

lemma step_subscribe_nobuf_connected (s : AdapterState) (id : String)
    (tok : Nat) (e : RoomEntry)
    (hl : alistLookup s.rooms id = some e) (hre : e.replay = none)
    (hc : e.connected = true) :
    step s (Ev.subscribe id tok)
      = { s with
            rooms := alistSet s.rooms id
              { e with observers := { tok := tok, joinedBeforeFirst := true }
                  :: e.observers },
            used := tok :: s.used,
            beforeFirst := tok :: s.beforeFirst } := by
  simp [step, stepSubscribe, hl, hre, hc]

lemma step_subscribe_connect_pending (s : AdapterState) (id : String)
    (tok : Nat) (e : RoomEntry) (flag : Bool)
    (hl : alistLookup s.rooms id = some e) (hc : e.connected = false)
    (hfr : e.fetchResult = none) (hflag : e.replay.isNone = flag) :
    step s (Ev.subscribe id tok)
      = { s with
            deliveries := match e.replay with
              | some v => (tok, Delivery.value v) :: s.deliveries
              | none => s.deliveries,
            rooms := alistSet s.rooms id
              { e with
                  observers := { tok := tok, joinedBeforeFirst := flag }
                    :: e.observers,
                  connected := true },
            used := tok :: s.used,
            beforeFirst := if flag then tok :: s.beforeFirst else s.beforeFirst } := by
  subst hflag
  cases hre : e.replay with
  | none =>
    simp [step, stepSubscribe, hl, hre, hc, connectEntry,
      alistLookup_set_self, alistSet_alistSet, hfr]
  | some v =>
    simp [step, stepSubscribe, hl, hre, hc, connectEntry,
      alistLookup_set_self, alistSet_alistSet, hfr]

lemma step_subscribe_connect_resolved (s : AdapterState) (id : String)
    (tok : Nat) (e : RoomEntry) (r : SDKRoom) (flag : Bool)
    (hl : alistLookup s.rooms id = some e) (hc : e.connected = false)
    (hfr : e.fetchResult = some (FetchOutcome.ok r))
    (hflag : e.replay.isNone = flag) :
    step s (Ev.subscribe id tok)
      = { s with
            deliveries :=
              deliverAll ({ tok := tok, joinedBeforeFirst := flag }
                  :: e.observers)
                (Delivery.value { origin := Origin.initial, room := fetchRoom r })
                (match e.replay with
                  | some v => (tok, Delivery.value v) :: s.deliveries
                  | none => s.deliveries),
            rooms := alistSet s.rooms id
              { e with
                  observers := { tok := tok, joinedBeforeFirst := flag }
                    :: e.observers,
                  connected := true, phase := Phase.live,
                  replay := some { origin := Origin.initial, room := fetchRoom r },
                  fetchResult := none },
            used := tok :: s.used,
            beforeFirst := if flag then tok :: s.beforeFirst else s.beforeFirst } := by
  subst hflag
  cases hre : e.replay with
  | none =>
    simp [step, stepSubscribe, hl, hre, hc, connectEntry,
      alistLookup_set_self, alistSet_alistSet, hfr]
  | some v =>
    simp [step, stepSubscribe, hl, hre, hc, connectEntry,
      alistLookup_set_self, alistSet_alistSet, hfr]

lemma step_subscribe_connect_failed (s : AdapterState) (id : String)
    (tok : Nat) (e : RoomEntry) (flag : Bool)
    (hl : alistLookup s.rooms id = some e) (hc : e.connected = false)
    (hfr : e.fetchResult = some FetchOutcome.failed)
    (hflag : e.replay.isNone = flag) :
    step s (Ev.subscribe id tok)
      = { s with
            gate := stopListeningToRoomUpdates s.gate,
            deliveries :=
              deliverAll ({ tok := tok, joinedBeforeFirst := flag }
                  :: e.observers)
                Delivery.error
                (match e.replay with
                  | some v => (tok, Delivery.value v) :: s.deliveries
                  | none => s.deliveries),
            rooms := alistDelete s.rooms id,
            used := tok :: s.used,
            beforeFirst := if flag then tok :: s.beforeFirst else s.beforeFirst } := by
  subst hflag
  cases hre : e.replay with
  | none =>
    simp [step, stepSubscribe, hl, hre, hc, connectEntry, finalizeEntry,
      alistLookup_set_self, alistDelete_alistSet, hfr]
  | some v =>
    simp [step, stepSubscribe, hl, hre, hc, connectEntry, finalizeEntry,
      alistLookup_set_self, alistDelete_alistSet, hfr]

lemma step_unsubscribe_none (s : AdapterState) (id : String) (tok : Nat)
    (hl : alistLookup s.rooms id = none) :
    step s (Ev.unsubscribe id tok) = s := by
  simp only [step, stepUnsubscribe, hl]

lemma step_unsubscribe_not_mem (s : AdapterState) (id : String) (tok : Nat)
    (e : RoomEntry) (hl : alistLookup s.rooms id = some e)
    (hm : tok ∉ e.observers.map Obs.tok) :
    step s (Ev.unsubscribe id tok) = s := by
  simp [step, stepUnsubscribe, hl, hm]

lemma step_unsubscribe_last (s : AdapterState) (id : String) (tok : Nat)
    (e : RoomEntry) (hl : alistLookup s.rooms id = some e)
    (hm : tok ∈ e.observers.map Obs.tok)
    (hlast : ((e.observers.filter fun o => !decide (o.tok = tok)).isEmpty
      && e.connected) = true) :
    step s (Ev.unsubscribe id tok) = finalizeEntry s id := by
  simp [step, stepUnsubscribe, hl, hm, hlast]

lemma step_unsubscribe_stay (s : AdapterState) (id : String) (tok : Nat)
    (e : RoomEntry) (hl : alistLookup s.rooms id = some e)
    (hm : tok ∈ e.observers.map Obs.tok)
    (hstay : ((e.observers.filter fun o => !decide (o.tok = tok)).isEmpty
      && e.connected) = false) :
    step s (Ev.unsubscribe id tok)
      = { s with
            rooms := alistSet s.rooms id
              { e with
                  observers := e.observers.filter fun o => !decide (o.tok = tok) } } := by
  simp [step, stepUnsubscribe, hl, hm, hstay]

lemma step_fetchResolve_none (s : AdapterState) (id : String) (r : SDKRoom)
    (hl : alistLookup s.rooms id = none) :
    step s (Ev.fetchResolve id r) = s := by
  simp only [step, stepFetchResolve, hl]

lemma step_fetchResolve_notFetching (s : AdapterState) (id : String)
    (r : SDKRoom) (e : RoomEntry) (hl : alistLookup s.rooms id = some e)
    (hp : e.phase = Phase.live) :
    step s (Ev.fetchResolve id r) = s := by
  simp [step, stepFetchResolve, hl, hp]

lemma step_fetchResolve_connected (s : AdapterState) (id : String)
    (r : SDKRoom) (e : RoomEntry) (hl : alistLookup s.rooms id = some e)
    (hp : e.phase = Phase.fetching) (hc : e.connected = true) :
    step s (Ev.fetchResolve id r)
      = { s with
            rooms := alistSet s.rooms id
              { e with
                  phase := Phase.live,
                  replay := some { origin := Origin.initial, room := fetchRoom r } },
            deliveries := deliverAll e.observers
              (Delivery.value { origin := Origin.initial, room := fetchRoom r })
              s.deliveries } := by
  simp [step, stepFetchResolve, hl, hp, hc]

lemma step_fetchResolve_unconnected (s : AdapterState) (id : String)
    (r : SDKRoom) (e : RoomEntry) (hl : alistLookup s.rooms id = some e)
    (hp : e.phase = Phase.fetching) (hc : e.connected = false) :
    step s (Ev.fetchResolve id r)
      = { s with
            rooms := alistSet s.rooms id
              { e with fetchResult := some (FetchOutcome.ok r) } } := by
  simp [step, stepFetchResolve, hl, hp, hc]

lemma step_fetchReject_none (s : AdapterState) (id : String)
    (hl : alistLookup s.rooms id = none) :
    step s (Ev.fetchReject id) = s := by
  simp only [step, stepFetchReject, hl]

lemma step_fetchReject_notFetching (s : AdapterState) (id : String)
    (e : RoomEntry) (hl : alistLookup s.rooms id = some e)
    (hp : e.phase = Phase.live) :
    step s (Ev.fetchReject id) = s := by
  simp [step, stepFetchReject, hl, hp]

lemma step_fetchReject_connected (s : AdapterState) (id : String)
    (e : RoomEntry) (hl : alistLookup s.rooms id = some e)
    (hp : e.phase = Phase.fetching) (hc : e.connected = true) :
    step s (Ev.fetchReject id)
      = { s with
            gate := stopListeningToRoomUpdates s.gate,
            rooms := alistDelete s.rooms id,
            deliveries := deliverAll e.observers Delivery.error s.deliveries } := by
  simp [step, stepFetchReject, hl, hp, hc, finalizeEntry]

lemma step_fetchReject_unconnected (s : AdapterState) (id : String)
    (e : RoomEntry) (hl : alistLookup s.rooms id = some e)
    (hp : e.phase = Phase.fetching) (hc : e.connected = false) :
    step s (Ev.fetchReject id)
      = { s with
            rooms := alistSet s.rooms id
              { e with fetchResult := some FetchOutcome.failed } } := by
  simp [step, stepFetchReject, hl, hp, hc]

lemma step_refetchResolve_none (s : AdapterState) (id : String) (r : SDKRoom)
    (hl : alistLookup s.rooms id = none) :
    step s (Ev.refetchResolve id r) = s := by
  simp only [step, stepRefetchResolve, hl]

lemma step_refetchResolve_live (s : AdapterState) (id : String) (r : SDKRoom)
    (e : RoomEntry) (hl : alistLookup s.rooms id = some e)
    (hp : e.phase = Phase.live) (hpend : 0 < e.pendingRefetches) :
    step s (Ev.refetchResolve id r)
      = { s with
            rooms := alistSet s.rooms id
              { e with
                  replay := some { origin := Origin.update, room := fetchRoom r },
                  pendingRefetches := e.pendingRefetches - 1 },
            deliveries := deliverAll e.observers
              (Delivery.value { origin := Origin.update, room := fetchRoom r })
              s.deliveries } := by
  simp [step, stepRefetchResolve, hl, hp, hpend]

lemma step_refetchResolve_skip (s : AdapterState) (id : String) (r : SDKRoom)
    (e : RoomEntry) (hl : alistLookup s.rooms id = some e)
    (h : ¬ (e.phase = Phase.live ∧ 0 < e.pendingRefetches)) :
    step s (Ev.refetchResolve id r) = s := by
  simp [step, stepRefetchResolve, hl, h]

lemma step_roomUpdated_eq (s : AdapterState) (ev : RawRoomEvent) :
    step s (Ev.roomUpdated ev)
      = { s with
            rooms := (roomUpdatedFold ev s.rooms s.gate s.deliveries).1,
            gate := (roomUpdatedFold ev s.rooms s.gate s.deliveries).2.1,
            deliveries := (roomUpdatedFold ev s.rooms s.gate s.deliveries).2.2 } := rfl

/-- Events that only call `getRoom(K)` or subscribe to its returned
observable. -/
def isGetOrSub (K : String) : Ev → Prop
  | Ev.getRoomCall id => id = K
  | Ev.subscribe id _ => id = K
  | _ => False

lemma c1_aux (K : String) :
    ∀ (rest : List Ev) (s : AdapterState) (e : RoomEntry),
      (∀ ev ∈ rest, isGetOrSub K ev) →
      alistLookup s.rooms K = some e →
      e.phase = Phase.fetching → e.fetchResult = none → e.replay = none →
      ∃ f : RoomEntry, alistLookup (runFrom s rest).rooms K = some f ∧
        (runFrom s rest).gate = s.gate ∧
        f.phase = Phase.fetching ∧ f.fetchResult = none ∧ f.replay = none ∧
        (∀ t, t ∈ e.observers.map Obs.tok → t ∈ f.observers.map Obs.tok) ∧
        (∀ t, Ev.subscribe K t ∈ rest → t ∈ f.observers.map Obs.tok) := by
  intro rest
  induction rest with
  | nil =>
    intro s e _ hl hp hf hr
    exact ⟨e, hl, rfl, hp, hf, hr, fun t ht => ht,
      fun t ht => absurd ht (List.not_mem_nil _)⟩
  | cons ev rest ih =>
    intro s e hall hl hp hf hr
    have h0 : isGetOrSub K ev := hall ev (List.mem_cons_self _ _)
    have hrest : ∀ x ∈ rest, isGetOrSub K x :=
      fun x hx => hall x (List.mem_cons_of_mem _ hx)
    cases ev with
    | getRoomCall id =>
      have hid : id = K := h0
      subst hid
      rw [runFrom_cons, step_getRoom_hit s id e hl]
      obtain ⟨f, h1, h2, h3, h4, h5, h6, h7⟩ := ih s e hrest hl hp hf hr
      refine ⟨f, h1, h2, h3, h4, h5, h6, fun t ht => ?_⟩
      rcases List.mem_cons.mp ht with hc | hc
      · cases hc
      · exact h7 t hc
    | subscribe id tok =>
      have hid : id = K := h0
      subst hid
      rw [runFrom_cons]
      have hlook : (alistLookup s.rooms id).isSome = true := by rw [hl]; rfl
      have hset : ∀ x : RoomEntry,
          alistLookup (alistSet s.rooms id x) id = some x :=
        fun x => alistLookup_set_self s.rooms id x hlook
      cases hc : e.connected with
      | true =>
        rw [step_subscribe_nobuf_connected s id tok e hl hr hc]
        obtain ⟨f, h1, h2, h3, h4, h5, h6, h7⟩ :=
          ih { s with
                rooms := alistSet s.rooms id
                  { e with observers := { tok := tok, joinedBeforeFirst := true }
                      :: e.observers },
                used := tok :: s.used,
                beforeFirst := tok :: s.beforeFirst }
            { e with observers := { tok := tok, joinedBeforeFirst := true }
                :: e.observers }
            hrest (hset _) hp hf hr
        refine ⟨f, h1, h2, h3, h4, h5, ?_, ?_⟩
        · intro t ht
          exact h6 t (by
            simp only [List.map_cons]
            exact List.mem_cons_of_mem _ ht)
        · intro t ht
          rcases List.mem_cons.mp ht with hcm | hcm
          · cases hcm
            exact h6 tok (by
              simp only [List.map_cons]
              exact List.mem_cons_self _ _)
          · exact h7 t hcm
      | false =>
        have hflag : e.replay.isNone = true := by rw [hr]; rfl
        rw [step_subscribe_connect_pending s id tok e true hl hc hf hflag]
        simp only [hr, if_pos]
        obtain ⟨f, h1, h2, h3, h4, h5, h6, h7⟩ :=
          ih { s with
                rooms := alistSet s.rooms id
                  { e with
                      observers := { tok := tok, joinedBeforeFirst := true }
                        :: e.observers,
                      connected := true, replay := none },
                used := tok :: s.used,
                beforeFirst := tok :: s.beforeFirst }
            { e with
                observers := { tok := tok, joinedBeforeFirst := true }
                  :: e.observers,
                connected := true, replay := none }
            hrest (hset _) hp hf rfl
        refine ⟨f, h1, h2, h3, h4, h5, ?_, ?_⟩
        · intro t ht
          exact h6 t (by
            simp only [List.map_cons]
            exact List.mem_cons_of_mem _ ht)
        · intro t ht
          rcases List.mem_cons.mp ht with hcm | hcm
          · cases hcm
            exact h6 tok (by
              simp only [List.map_cons]
              exact List.mem_cons_self _ _)
          · exact h7 t hcm
    | unsubscribe id tok => cases h0
    | fetchResolve id r => cases h0
    | fetchReject id => cases h0
    | roomUpdated ev2 => cases h0
    | refetchResolve id r => cases h0

/-- C1: starting from a fresh adapter, a `getRoom(K)` call followed by any
sequence of further `getRoom(K)` calls and subscriptions to the returned
observable — all before the initial fetch settles — records exactly one
`fetchRoom(K)` call and exactly one gate acquire, and every subscriber is
attached to the single cached multicast entry for `K`. -/
theorem getRoom_single_fetch_single_acquire (K : String) (rest : List Ev)
    (h : ∀ ev ∈ rest, isGetOrSub K ev) :
    countAcquires (run (Ev.getRoomCall K :: rest)).gate.calls = 1 ∧
    countFetches K (run (Ev.getRoomCall K :: rest)).gate.calls = 1 ∧
    ∃ f : RoomEntry,
      alistLookup (run (Ev.getRoomCall K :: rest)).rooms K = some f ∧
      ∀ t, Ev.subscribe K t ∈ rest → t ∈ f.observers.map Obs.tok := by
  have hrun : run (Ev.getRoomCall K :: rest)
      = runFrom (step initState (Ev.getRoomCall K)) rest := rfl
  have hstep : step initState (Ev.getRoomCall K)
      = { gate := { listenerCount := 1,
                    calls := [CallKind.fetch K, CallKind.listen,
                              CallKind.acquire] },
          rooms := [(K, { phase := Phase.fetching, connected := false,
                          observers := [], replay := none,
                          fetchResult := none, pendingRefetches := 0 })],
          deliveries := [], used := [], beforeFirst := [] } := rfl
  rw [hrun, hstep]
  have hl : alistLookup
      ([(K, { phase := Phase.fetching, connected := false,
              observers := [], replay := none,
              fetchResult := none, pendingRefetches := 0 })]
        : List (String × RoomEntry)) K
      = some { phase := Phase.fetching, connected := false,
               observers := [], replay := none,
               fetchResult := none, pendingRefetches := 0 } := by
    simp [alistLookup]
  obtain ⟨f, h1, h2, _, _, _, _, h7⟩ :=
    c1_aux K rest
      { gate := { listenerCount := 1,
                  calls := [CallKind.fetch K, CallKind.listen,
                            CallKind.acquire] },
        rooms := [(K, { phase := Phase.fetching, connected := false,
                        observers := [], replay := none,
                        fetchResult := none, pendingRefetches := 0 })],
        deliveries := [], used := [], beforeFirst := [] }
      { phase := Phase.fetching, connected := false,
        observers := [], replay := none,
        fetchResult := none, pendingRefetches := 0 }
      h hl rfl rfl rfl
  rw [h2]
  refine ⟨rfl, ?_, f, h1, h7⟩
  simp [countFetches]

/-- Witness for C1: two subscribers and a repeated `getRoom` call for the
same id, all before the fetch resolves. -/
theorem getRoom_single_fetch_single_acquire_witness :
    countAcquires (run (Ev.getRoomCall "r" :: [Ev.subscribe "r" 0,
        Ev.getRoomCall "r", Ev.subscribe "r" 1])).gate.calls = 1 ∧
    countFetches "r" (run (Ev.getRoomCall "r" :: [Ev.subscribe "r" 0,
        Ev.getRoomCall "r", Ev.subscribe "r" 1])).gate.calls = 1 ∧
    ∃ f : RoomEntry,
      alistLookup (run (Ev.getRoomCall "r" :: [Ev.subscribe "r" 0,
          Ev.getRoomCall "r", Ev.subscribe "r" 1])).rooms "r" = some f ∧
      ∀ t, Ev.subscribe "r" t ∈ [Ev.subscribe "r" 0, Ev.getRoomCall "r",
          Ev.subscribe "r" 1] → t ∈ f.observers.map Obs.tok :=
  getRoom_single_fetch_single_acquire "r"
    [Ev.subscribe "r" 0, Ev.getRoomCall "r", Ev.subscribe "r" 1]
    (by
      intro ev hev
      fin_cases hev <;> simp [isGetOrSub])

lemma countReleases_stop (g : CallLog) :
    countReleases (stopListeningToRoomUpdates g).calls
      = countReleases g.calls + 1 := by
  rw [stop_calls]
  split <;> simp [countReleases]

lemma countAcquires_start (g : CallLog) :
    countAcquires (startListeningToRoomUpdates g).calls
      = countAcquires g.calls + 1 := by
  rw [start_calls]
  split <;> simp [countAcquires]

lemma countFetches_start (K : String) (g : CallLog) :
    countFetches K (startListeningToRoomUpdates g).calls
      = countFetches K g.calls := by
  rw [start_calls]
  split <;> simp [countFetches]

lemma countFetches_stop (K : String) (g : CallLog) :
    countFetches K (stopListeningToRoomUpdates g).calls
      = countFetches K g.calls := by
  rw [stop_calls]
  split <;> simp [countFetches]

lemma countAcquires_stop (g : CallLog) :
    countAcquires (stopListeningToRoomUpdates g).calls
      = countAcquires g.calls := by
  rw [stop_calls]
  split <;> simp [countAcquires]

lemma countFetches_cons_fetch_self (K : String) (l : List CallKind) :
    countFetches K (CallKind.fetch K :: l) = countFetches K l + 1 := by
  simp [countFetches]
  omega

/-- Fixed concrete SDK room value used by the concrete witness scenarios. -/
def sdkR : SDKRoom := { id := "r", title := "t", type := "g" }

/-- Second concrete SDK room value (a renamed room) for witness scenarios. -/
def sdkR2 : SDKRoom := { id := "r", title := "t2", type := "g" }

/-- The initial-fetch snapshot of `sdkR`. -/
def snapR : Snap := { origin := Origin.initial, room := fetchRoom sdkR }

/-- An update-derived snapshot of `sdkR2`. -/
def snapR2 : Snap := { origin := Origin.update, room := fetchRoom sdkR2 }

/-- Concrete state: one subscriber of room `"r"`, fetch already resolved. -/
def stateResolved : AdapterState :=
  run [Ev.getRoomCall "r", Ev.subscribe "r" 0, Ev.fetchResolve "r" sdkR]

/-- The entry cached under `"r"` in `stateResolved`. -/
def entryResolved : RoomEntry :=
  { phase := Phase.live, connected := true,
    observers := [{ tok := 0, joinedBeforeFirst := true }],
    replay := some snapR, fetchResult := none, pendingRefetches := 0 }

/-- C2: a subscription arriving while an entry is active (`connected`) and
already holds a produced snapshot in its `publishReplay(1)` buffer immediately
receives exactly that latest snapshot, triggers no gate call and no fetch call
(the whole call log is unchanged), and is attached to the entry for all
subsequent live snapshots. -/
theorem late_subscriber_replays_latest_without_fetch (s : AdapterState)
    (K : String) (tok : Nat) (e : RoomEntry) (v : Snap)
    (h1 : alistLookup s.rooms K = some e) (h2 : e.replay = some v)
    (h3 : e.connected = true) :
    (step s (Ev.subscribe K tok)).deliveries
        = (tok, Delivery.value v) :: s.deliveries ∧
    (step s (Ev.subscribe K tok)).gate = s.gate ∧
    ∃ f : RoomEntry,
      alistLookup (step s (Ev.subscribe K tok)).rooms K = some f ∧
      tok ∈ f.observers.map Obs.tok ∧ f.phase = e.phase ∧
      f.replay = e.replay := by
  rw [step_subscribe_replay_connected s K tok e v h1 h2 h3]
  refine ⟨rfl, rfl, _,
    alistLookup_set_self s.rooms K _ (by rw [h1]; rfl), ?_, rfl, rfl⟩
  simp

/-- Witness for C2: after `getRoom("r")`, one subscriber and a resolved
fetch, a second subscriber immediately receives the buffered initial
snapshot. -/
theorem late_subscriber_replays_latest_without_fetch_witness :
    (step stateResolved (Ev.subscribe "r" 1)).deliveries
        = (1, Delivery.value snapR) :: stateResolved.deliveries ∧
    (step stateResolved (Ev.subscribe "r" 1)).gate = stateResolved.gate ∧
    ∃ f : RoomEntry,
      alistLookup (step stateResolved (Ev.subscribe "r" 1)).rooms "r" = some f ∧
      1 ∈ f.observers.map Obs.tok ∧ f.phase = entryResolved.phase ∧
      f.replay = entryResolved.replay :=
  late_subscriber_replays_latest_without_fetch stateResolved "r" 1
    entryResolved snapR (by decide) (by decide) (by decide)

/-- C3: when the single remaining observer of an active entry unsubscribes,
teardown runs exactly once — one `release` is recorded (inside
`stopListeningToRoomUpdates`) and the cache entry is evicted — and a
subsequent `getRoom(K)` call performs a fresh fetch and a fresh acquire. -/
theorem last_unsubscribe_releases_once_and_refetches (s : AdapterState)
    (K : String) (tok : Nat) (e : RoomEntry) (ob : Obs)
    (hnd : (s.rooms.map Prod.fst).Nodup)
    (h1 : alistLookup s.rooms K = some e) (h2 : e.observers = [ob])
    (h3 : ob.tok = tok) (h4 : e.connected = true) :
    countReleases (step s (Ev.unsubscribe K tok)).gate.calls
        = countReleases s.gate.calls + 1 ∧
    alistLookup (step s (Ev.unsubscribe K tok)).rooms K = none ∧
    countFetches K
        (step (step s (Ev.unsubscribe K tok)) (Ev.getRoomCall K)).gate.calls
      = countFetches K (step s (Ev.unsubscribe K tok)).gate.calls + 1 ∧
    countAcquires
        (step (step s (Ev.unsubscribe K tok)) (Ev.getRoomCall K)).gate.calls
      = countAcquires (step s (Ev.unsubscribe K tok)).gate.calls + 1 := by
  have hm : tok ∈ e.observers.map Obs.tok := by
    rw [h2, ← h3]
    simp
  have hlast : ((e.observers.filter fun o => !decide (o.tok = tok)).isEmpty
      && e.connected) = true := by
    rw [h2, h4]
    simp [List.filter, h3]
  rw [step_unsubscribe_last s K tok e h1 hm hlast]
  have hgate : (finalizeEntry s K).gate = stopListeningToRoomUpdates s.gate := rfl
  have hrooms : (finalizeEntry s K).rooms = alistDelete s.rooms K := rfl
  have hnone : alistLookup (finalizeEntry s K).rooms K = none := by
    rw [hrooms]
    exact alistLookup_delete_self s.rooms K hnd
  refine ⟨?_, hnone, ?_, ?_⟩
  · rw [hgate]
    exact countReleases_stop s.gate
  · rw [step_getRoom_miss (finalizeEntry s K) K hnone]
    rw [hgate]
    rw [countFetches_cons_fetch_self, countFetches_start]
  · rw [step_getRoom_miss (finalizeEntry s K) K hnone]
    show countAcquires
        (startListeningToRoomUpdates (finalizeEntry s K).gate).calls
      = countAcquires (finalizeEntry s K).gate.calls + 1
    exact countAcquires_start _

/-- Concrete state: one subscriber of room `"r"`, fetch still pending. -/
def statePending : AdapterState :=
  run [Ev.getRoomCall "r", Ev.subscribe "r" 0]

/-- The entry cached under `"r"` in `statePending`. -/
def entryPending : RoomEntry :=
  { phase := Phase.fetching, connected := true,
    observers := [{ tok := 0, joinedBeforeFirst := true }],
    replay := none, fetchResult := none, pendingRefetches := 0 }

/-- Witness for C3 at a concrete one-subscriber state. -/
theorem last_unsubscribe_releases_once_and_refetches_witness :
    countReleases (step stateResolved (Ev.unsubscribe "r" 0)).gate.calls
        = countReleases stateResolved.gate.calls + 1 ∧
    alistLookup (step stateResolved (Ev.unsubscribe "r" 0)).rooms "r" = none ∧
    countFetches "r"
        (step (step stateResolved (Ev.unsubscribe "r" 0))
          (Ev.getRoomCall "r")).gate.calls
      = countFetches "r" (step stateResolved (Ev.unsubscribe "r" 0)).gate.calls
        + 1 ∧
    countAcquires
        (step (step stateResolved (Ev.unsubscribe "r" 0))
          (Ev.getRoomCall "r")).gate.calls
      = countAcquires (step stateResolved (Ev.unsubscribe "r" 0)).gate.calls
        + 1 :=
  last_unsubscribe_releases_once_and_refetches stateResolved "r" 0
    entryResolved { tok := 0, joinedBeforeFirst := true }
    (by decide) (by decide) (by decide) (by decide) (by decide)

/-- C7: if the snapshot fetch rejects while the entry is connected, the stream
terminates with an error notification delivered to every current observer, and
teardown still runs — one `release` is recorded and the cache entry for `K` is
evicted — so that a subsequent `getRoom(K)` call retries with a fresh fetch
and a fresh acquire. -/
theorem fetch_failure_errors_all_releases_and_evicts (s : AdapterState)
    (K : String) (e : RoomEntry)
    (hnd : (s.rooms.map Prod.fst).Nodup)
    (h1 : alistLookup s.rooms K = some e) (h2 : e.phase = Phase.fetching)
    (h3 : e.connected = true) :
    (step s (Ev.fetchReject K)).deliveries
        = deliverAll e.observers Delivery.error s.deliveries ∧
    countReleases (step s (Ev.fetchReject K)).gate.calls
        = countReleases s.gate.calls + 1 ∧
    alistLookup (step s (Ev.fetchReject K)).rooms K = none ∧
    countFetches K
        (step (step s (Ev.fetchReject K)) (Ev.getRoomCall K)).gate.calls
      = countFetches K (step s (Ev.fetchReject K)).gate.calls + 1 ∧
    countAcquires
        (step (step s (Ev.fetchReject K)) (Ev.getRoomCall K)).gate.calls
      = countAcquires (step s (Ev.fetchReject K)).gate.calls + 1 := by
  rw [step_fetchReject_connected s K e h1 h2 h3]
  have hnone : alistLookup (alistDelete s.rooms K) K = none :=
    alistLookup_delete_self s.rooms K hnd
  refine ⟨rfl, countReleases_stop s.gate, hnone, ?_, ?_⟩
  · rw [step_getRoom_miss _ K hnone]
    rw [countFetches_cons_fetch_self]
    show countFetches K
        (startListeningToRoomUpdates (stopListeningToRoomUpdates s.gate)).calls
          + 1
      = countFetches K (stopListeningToRoomUpdates s.gate).calls + 1
    rw [countFetches_start]
  · rw [step_getRoom_miss _ K hnone]
    show countAcquires
        (startListeningToRoomUpdates (stopListeningToRoomUpdates s.gate)).calls
      = countAcquires (stopListeningToRoomUpdates s.gate).calls + 1
    exact countAcquires_start _

/-- Witness for C7: two pending subscribers of `"r"`; the fetch rejects. -/
theorem fetch_failure_errors_all_releases_and_evicts_witness :
    (step (run [Ev.getRoomCall "r", Ev.subscribe "r" 0, Ev.subscribe "r" 1])
        (Ev.fetchReject "r")).deliveries
      = deliverAll [{ tok := 1, joinedBeforeFirst := true },
          { tok := 0, joinedBeforeFirst := true }] Delivery.error
          (run [Ev.getRoomCall "r", Ev.subscribe "r" 0,
            Ev.subscribe "r" 1]).deliveries ∧
    countReleases (step (run [Ev.getRoomCall "r", Ev.subscribe "r" 0,
        Ev.subscribe "r" 1]) (Ev.fetchReject "r")).gate.calls
      = countReleases (run [Ev.getRoomCall "r", Ev.subscribe "r" 0,
          Ev.subscribe "r" 1]).gate.calls + 1 ∧
    alistLookup (step (run [Ev.getRoomCall "r", Ev.subscribe "r" 0,
        Ev.subscribe "r" 1]) (Ev.fetchReject "r")).rooms "r" = none ∧
    countFetches "r"
        (step (step (run [Ev.getRoomCall "r", Ev.subscribe "r" 0,
          Ev.subscribe "r" 1]) (Ev.fetchReject "r"))
          (Ev.getRoomCall "r")).gate.calls
      = countFetches "r" (step (run [Ev.getRoomCall "r", Ev.subscribe "r" 0,
          Ev.subscribe "r" 1]) (Ev.fetchReject "r")).gate.calls + 1 ∧
    countAcquires
        (step (step (run [Ev.getRoomCall "r", Ev.subscribe "r" 0,
          Ev.subscribe "r" 1]) (Ev.fetchReject "r"))
          (Ev.getRoomCall "r")).gate.calls
      = countAcquires (step (run [Ev.getRoomCall "r", Ev.subscribe "r" 0,
          Ev.subscribe "r" 1]) (Ev.fetchReject "r")).gate.calls + 1 :=
  fetch_failure_errors_all_releases_and_evicts
    (run [Ev.getRoomCall "r", Ev.subscribe "r" 0, Ev.subscribe "r" 1]) "r"
    { phase := Phase.fetching, connected := true,
      observers := [{ tok := 1, joinedBeforeFirst := true },
        { tok := 0, joinedBeforeFirst := true }],
      replay := none, fetchResult := none, pendingRefetches := 0 }
    (by decide) (by decide) (by decide) (by decide)

lemma alist_mem_eq_of_lookup_nodup {α : Type} :
    ∀ (rs : List (String × α)) (K : String) (e : α),
      (rs.map Prod.fst).Nodup → alistLookup rs K = some e →
      ∀ p ∈ rs, p.1 = K → p.2 = e := by
  intro rs
  induction rs with
  | nil => intro K e _ _ p hp; cases hp
  | cons q rest ih =>
    intro K e hnd hl p hp hpk
    simp only [List.map_cons, List.nodup_cons] at hnd
    by_cases hq : q.1 = K
    · simp only [alistLookup, if_pos hq] at hl
      rcases List.mem_cons.mp hp with hc | hc
      · subst hc
        injection hl
      · exfalso
        apply hnd.1
        rw [hq, ← hpk]
        exact List.mem_map_of_mem Prod.fst hc
    · simp only [alistLookup, if_neg hq] at hl
      rcases List.mem_cons.mp hp with hc | hc
      · subst hc; exact absurd hpk hq
      · exact ih K e hnd.2 hl p hc hpk

lemma roomUpdatedFold_id (K : String) :
    ∀ (rs : List (String × RoomEntry)) (g : CallLog)
      (ds : List (Nat × Delivery)),
      (∀ p ∈ rs, p.1 = K → p.2.phase = Phase.fetching) →
      roomUpdatedFold { data := some { id := some K } } rs g ds = (rs, g, ds) := by
  intro rs
  induction rs with
  | nil => intro g ds _; rfl
  | cons p rest ih =>
    intro g ds hall
    obtain ⟨id, e⟩ := p
    have hrest : ∀ q ∈ rest, q.1 = K → q.2.phase = Phase.fetching :=
      fun q hq => hall q (List.mem_cons_of_mem _ hq)
    by_cases hlive : e.connected = true ∧ e.phase = Phase.live
    · have hne : ¬ (some K = some id) := by
        intro hc
        injection hc with hc2
        have := hall (id, e) (List.mem_cons_self _ _) hc2.symm
        rw [this] at hlive
        cases hlive.2
      simp only [roomUpdatedFold, if_pos hlive]
      have hrefl : (({ id := some K } : RawRef).id = some id) = (some K = some id) := rfl
      simp only [hrefl, if_neg hne]
      rw [ih g ds hrest]
    · simp only [roomUpdatedFold, if_neg hlive]
      rw [ih g ds hrest]

/-- C10: a raw `updated` event targeting `K` that is delivered while the entry
for `K` is still awaiting its initial fetch (and while no other entry matches
`K`) leaves the whole adapter state unchanged: no snapshot emission, no
re-fetch, no pending work — the event is silently lost, because the
`fromEvent` subscription of the `concat` is only established after the initial
snapshot sequence completes. -/
theorem update_during_pending_fetch_is_lost (s : AdapterState) (K : String)
    (e : RoomEntry) (hnd : (s.rooms.map Prod.fst).Nodup)
    (h1 : alistLookup s.rooms K = some e) (h2 : e.phase = Phase.fetching) :
    step s (Ev.roomUpdated { data := some { id := some K } }) = s := by
  rw [step_roomUpdated_eq]
  have hall : ∀ p ∈ s.rooms, p.1 = K → p.2.phase = Phase.fetching := by
    intro p hp hpk
    rw [alist_mem_eq_of_lookup_nodup s.rooms K e hnd h1 p hp hpk]
    exact h2
  rw [roomUpdatedFold_id K s.rooms s.gate s.deliveries hall]

/-- Witness for C10 at the concrete pending-fetch state. -/
theorem update_during_pending_fetch_is_lost_witness :
    step statePending (Ev.roomUpdated { data := some { id := some "r" } })
      = statePending :=
  update_during_pending_fetch_is_lost statePending "r" entryPending
    (by decide) (by decide) (by decide)

/-!
## The `getRoomActivities` broadcast cache

`getRoomActivities(ID)` creates, on first call per id, a `BehaviorSubject({})`
and registers a permanent handler on
`datasource.internal.mercury.on('event:conversation.activity', ...)`; every
call returns the cached subject.  The handler compares the incoming
activity's `target.id` with the `id` of `deconstructHydraId(ID)` and, on
match, pushes a reshaped `Activity` onto the subject.

`deconstructHydraId` lives in the external `@webex/common` package (the
spec's data-source `decodeId` contract), so it is kept abstract as a function
parameter.  JavaScript field accesses that may hit `undefined` without
throwing are `Option`-valued; accesses that throw a `TypeError` when the
parent object is absent are modelled by `Except.error`.
-/

/-- The `target` object of a raw activity (its `id` may be absent). -/
structure ActTarget where
  id : Option String
deriving DecidableEq, Repr

/-- The `object` payload of a raw activity (`objectType` may be absent). -/
structure ActObject where
  objectType : Option String
deriving DecidableEq, Repr

/-- The `actor` object of a raw activity (its `id` may be absent). -/
structure ActActor where
  id : Option String
deriving DecidableEq, Repr

/-- A raw `event:conversation.activity` payload: `target`, `object` and
`actor` may each be absent. -/
structure SDKActivity where
  id : String
  target : Option ActTarget
  object : Option ActObject
  actor : Option ActActor
  published : Option String
deriving DecidableEq, Repr

/-- The reshaped activity pushed onto the subject. -/
structure Activity where
  ID : String
  roomID : String
  content : ActObject
  contentType : Option String
  personID : Option String
  displayAuthor : Bool
  created : Option String
deriving DecidableEq, Repr

/-- The `BehaviorSubject` of one room id: its current value (`none` is the
initial `{}` placeholder) and the number of `next` calls so far. -/
structure ActChannel where
  latest : Option Activity
  emissions : Nat
deriving DecidableEq, Repr

/-- State of the activities side: the `getRoomActivitiesCache` association
list and the ids with a registered mercury handler (registration order, most
recent first). -/
structure ActState where
  cache : List (String × ActChannel)
  handlers : List String
deriving DecidableEq, Repr

/-- Fresh activities state. -/
def initActState : ActState := { cache := [], handlers := [] }

/-- `getRoomActivities(ID)`: on first call per id, register the mercury
handler and cache a fresh subject; on every call return the cached subject
(the returned handle is the cache entry under `ID`). -/
def getRoomActivities (s : ActState) (ID : String) : ActState :=
  match alistLookup s.cache ID with
  | some _ => s
  | none =>
    { cache := (ID, { latest := none, emissions := 0 }) :: s.cache,
      handlers := ID :: s.handlers }

/-- The mercury handler registered for `ID`: drop the event unless
`sdkActivity.target && sdkActivity.target.id === UUID` (where
`{id: UUID} = deconstructHydraId(ID)`); on match, build the activity —
accessing `sdkActivity.object.objectType` and `sdkActivity.actor.id`, which
throws when `object` or `actor` is absent — and push it onto the subject. -/
def mercuryHandler (decodeId : String → String) (ID : String)
    (a : SDKActivity) (ch : ActChannel) : Except Unit ActChannel :=
  match a.target with
  | none => Except.ok ch
  | some t =>
    if t.id = some (decodeId ID) then
      match a.object, a.actor with
      | some obj, some act =>
        Except.ok
          { latest := some
              { ID := a.id
                roomID := decodeId ID
                content := obj
                contentType := obj.objectType
                personID := act.id
                displayAuthor := false
                created := a.published }
            emissions := ch.emissions + 1 }
      | some _, none => Except.error ()
      | none, _ => Except.error ()
    else Except.ok ch

/-- One incoming mercury activity event dispatched to every registered
handler in order; a handler that throws aborts the emit (`Except.error`). -/
def dispatchActivity (decodeId : String → String) (a : SDKActivity) :
    List String → List (String × ActChannel) →
      Except Unit (List (String × ActChannel))
  | [], cache => Except.ok cache
  | K :: rest, cache =>
    match alistLookup cache K with
    | none => dispatchActivity decodeId a rest cache
    | some ch =>
      match mercuryHandler decodeId K a ch with
      | Except.error _ => Except.error ()
      | Except.ok ch2 => dispatchActivity decodeId a rest (alistSet cache K ch2)

/-- C9: `getRoomActivities` is idempotent — a repeated call for the same id
returns the very same cached subject, registering nothing new (the whole
activities state is unchanged) — and an activity event whose `target.id`
differs from the id's decoded key leaves the subject untouched (no
emission). -/
theorem getRoomActivities_idempotent_and_filters (s : ActState) (ID : String)
    (decodeId : String → String) (a : SDKActivity) (ch : ActChannel)
    (t : ActTarget) (ht : a.target = some t)
    (hne : ¬ t.id = some (decodeId ID)) :
    getRoomActivities (getRoomActivities s ID) ID = getRoomActivities s ID ∧
    (alistLookup (getRoomActivities s ID).cache ID).isSome = true ∧
    mercuryHandler decodeId ID a ch = Except.ok ch := by
  refine ⟨?_, ?_, ?_⟩
  · cases hc : alistLookup s.cache ID with
    | some ch2 => simp [getRoomActivities, hc]
    | none =>
      simp [getRoomActivities, hc, alistLookup]
  · cases hc : alistLookup s.cache ID with
    | some ch2 => simp [getRoomActivities, hc]
    | none => simp [getRoomActivities, hc, alistLookup]
  · simp [mercuryHandler, ht, hne]

/-- Witness for C9 at concrete values: id `"room1"`, identity decode, an
activity targeted at a different room. -/
theorem getRoomActivities_idempotent_and_filters_witness :
    getRoomActivities (getRoomActivities initActState "room1") "room1"
        = getRoomActivities initActState "room1" ∧
    (alistLookup (getRoomActivities initActState "room1").cache
        "room1").isSome = true ∧
    mercuryHandler (fun x => x) "room1"
        { id := "a1", target := some { id := some "other" },
          object := some { objectType := some "comment" },
          actor := some { id := some "p1" }, published := none }
        { latest := none, emissions := 0 }
      = Except.ok { latest := none, emissions := 0 } :=
  getRoomActivities_idempotent_and_filters initActState "room1" (fun x => x)
    { id := "a1", target := some { id := some "other" },
      object := some { objectType := some "comment" },
      actor := some { id := some "p1" }, published := none }
    { latest := none, emissions := 0 }
    { id := some "other" } (by decide) (by decide)

lemma roomUpdatedFold_id_of_no_dataId :
    ∀ (rs : List (String × RoomEntry)) (g : CallLog)
      (ds : List (Nat × Delivery)),
      roomUpdatedFold { data := some { id := none } } rs g ds = (rs, g, ds) := by
  intro rs
  induction rs with
  | nil => intro g ds; rfl
  | cons p rest ih =>
    intro g ds
    obtain ⟨id, e⟩ := p
    by_cases hlive : e.connected = true ∧ e.phase = Phase.live
    · have hne : ¬ (({ id := none } : RawRef).id = some id) := by
        intro hc
        cases hc
      simp only [roomUpdatedFold, if_pos hlive, if_neg hne]
      rw [ih g ds]
    · simp only [roomUpdatedFold, if_neg hlive]
      rw [ih g ds]

/-- The activities state with one registered id `"r"`. -/
def actStateR : ActState := getRoomActivities initActState "r"

/-- A malformed activity: its `target` matches room `"r"` but `object` is
absent. -/
def badActivity : SDKActivity :=
  { id := "a1", target := some { id := some "r" }, object := none,
    actor := some { id := some "p1" }, published := none }

/-- C8 counterexample: malformed events are not dropped harmlessly.  A room
`updated` event with no `data` field crashes the `filter` predicate
(`event.data.id`), erroring the live stream of `"r"`: its observer receives
an error notification and the entry is torn down, so the remaining observers
are very much affected.  Likewise, an activity event whose `target` matches
but whose `object` is absent throws inside the shared mercury handler
(`sdkActivity.object.objectType`). -/
theorem malformed_event_crashes_stream :
    (step stateResolved (Ev.roomUpdated { data := none })).deliveries
        = (0, Delivery.error) :: stateResolved.deliveries ∧
    alistLookup (step stateResolved
        (Ev.roomUpdated { data := none })).rooms "r" = none ∧
    dispatchActivity (fun x => x) badActivity actStateR.handlers
        actStateR.cache = Except.error () := by
  refine ⟨by decide, by decide, rfl⟩

/-- C8 (amended): only events carrying the expected fields up to the filter
point are handled safely.  An `updated` room event whose `data` object is
present but lacks an `id` is filtered out for every entry, leaving the whole
adapter state unchanged; an activity event with no `target` is dropped by the
guard without touching the subject.  (Per the counterexample, an `updated`
event with no `data` at all errors every live stream, and a matching activity
event missing `object` or `actor` throws in the shared handler.) -/
theorem well_guarded_malformed_events_are_dropped :
    (∀ s : AdapterState,
      step s (Ev.roomUpdated { data := some { id := none } }) = s) ∧
    (∀ (decodeId : String → String) (ID aid : String)
      (o : Option ActObject) (ac : Option ActActor) (p : Option String)
      (ch : ActChannel),
      mercuryHandler decodeId ID
        { id := aid, target := none, object := o, actor := ac, published := p }
        ch = Except.ok ch) := by
  constructor
  · intro s
    rw [step_roomUpdated_eq, roomUpdatedFold_id_of_no_dataId]
  · intro decodeId ID aid o ac p ch
    rfl

/-- Chronological list of notifications delivered to subscription token `t`
(the delivery log is most-recent-first, so filter then reverse). -/
def chronOf (ds : List (Nat × Delivery)) (t : Nat) : List Delivery :=
  ((ds.filter fun p => decide (p.1 = t)).map Prod.snd).reverse

/-- Chronological notifications of token `t` in state `s`. -/
def chron (s : AdapterState) (t : Nat) : List Delivery :=
  chronOf s.deliveries t

/-- `true` iff the chronological list contains an initial-fetch snapshot. -/
def seenInitialB : List Delivery → Bool
  | [] => false
  | Delivery.value v :: rest =>
    match v.origin with
    | Origin.initial => true
    | Origin.update => seenInitialB rest
  | Delivery.error :: rest => seenInitialB rest

/-- `true` iff no update-derived snapshot occurs before the first
initial-fetch snapshot of the chronological list. -/
def initBeforeUpdateB : List Delivery → Bool
  | [] => true
  | Delivery.value v :: _ =>
    match v.origin with
    | Origin.initial => true
    | Origin.update => false
  | Delivery.error :: rest => initBeforeUpdateB rest

/-- The tokens of the subscribe events of a trace, in order. -/
def subTokens : List Ev → List Nat
  | [] => []
  | Ev.subscribe _ t :: rest => t :: subTokens rest
  | Ev.getRoomCall _ :: rest => subTokens rest
  | Ev.unsubscribe _ _ :: rest => subTokens rest
  | Ev.fetchResolve _ _ :: rest => subTokens rest
  | Ev.fetchReject _ :: rest => subTokens rest
  | Ev.roomUpdated _ :: rest => subTokens rest
  | Ev.refetchResolve _ _ :: rest => subTokens rest

/-- The C6 counterexample trace: one subscriber sees the initial snapshot and
an update-derived one; then a second subscriber attaches late. -/
def c6trace : List Ev :=
  [Ev.getRoomCall "r", Ev.subscribe "r" 0, Ev.fetchResolve "r" sdkR,
   Ev.roomUpdated { data := some { id := some "r" } },
   Ev.refetchResolve "r" sdkR2, Ev.subscribe "r" 1]

/-- C6 counterexample: subscription `1` attaches after an update-derived
snapshot has replaced the `publishReplay(1)` buffer; its very first (and
only) delivered snapshot is update-derived and no initial-fetch snapshot is
ever observed on that subscription, so "the initial snapshot is always
observed before any update-derived snapshot" fails as stated. -/
theorem late_subscription_starts_with_update_snapshot :
    chron (run c6trace) 1 = [Delivery.value snapR2] ∧
    initBeforeUpdateB (chron (run c6trace) 1) = false := by
  refine ⟨by decide, by decide⟩

lemma seenInitialB_append_left (l l2 : List Delivery)
    (h : seenInitialB l = true) : seenInitialB (l ++ l2) = true := by
  induction l with
  | nil => cases h
  | cons d rest ih =>
    cases d with
    | value v =>
      cases hv : v.origin with
      | initial => simp [seenInitialB, hv]
      | update =>
        simp only [seenInitialB, hv] at h
        simp only [List.cons_append, seenInitialB, hv]
        exact ih h
    | error =>
      simp only [seenInitialB] at h
      simp only [List.cons_append, seenInitialB]
      exact ih h

lemma seenInitialB_append_initial (l : List Delivery) (r : Room) :
    seenInitialB (l ++ [Delivery.value { origin := Origin.initial, room := r }])
      = true := by
  induction l with
  | nil => rfl
  | cons d rest ih =>
    cases d with
    | value v =>
      cases hv : v.origin with
      | initial => simp [seenInitialB, hv]
      | update =>
        simp only [List.cons_append, seenInitialB, hv]
        exact ih
    | error =>
      simp only [List.cons_append, seenInitialB]
      exact ih

lemma initBeforeUpdateB_append_error (l : List Delivery) :
    initBeforeUpdateB (l ++ [Delivery.error]) = initBeforeUpdateB l := by
  induction l with
  | nil => rfl
  | cons d rest ih =>
    cases d with
    | value v =>
      cases hv : v.origin with
      | initial => simp [initBeforeUpdateB, hv]
      | update => simp [initBeforeUpdateB, hv]
    | error =>
      simp only [List.cons_append, initBeforeUpdateB]
      exact ih

lemma initBeforeUpdateB_append_initial (l : List Delivery) (r : Room)
    (h : initBeforeUpdateB l = true) :
    initBeforeUpdateB
      (l ++ [Delivery.value { origin := Origin.initial, room := r }]) = true := by
  induction l with
  | nil => rfl
  | cons d rest ih =>
    cases d with
    | value v =>
      cases hv : v.origin with
      | initial => simp [initBeforeUpdateB, hv]
      | update => simp only [initBeforeUpdateB, hv] at h; cases h
    | error =>
      simp only [initBeforeUpdateB] at h
      simp only [List.cons_append, initBeforeUpdateB]
      exact ih h

lemma initBeforeUpdateB_append_update (l : List Delivery) (r : Room)
    (hseen : seenInitialB l = true) (h : initBeforeUpdateB l = true) :
    initBeforeUpdateB
      (l ++ [Delivery.value { origin := Origin.update, room := r }]) = true := by
  induction l with
  | nil => cases hseen
  | cons d rest ih =>
    cases d with
    | value v =>
      cases hv : v.origin with
      | initial => simp [initBeforeUpdateB, hv]
      | update => simp only [initBeforeUpdateB, hv] at h; cases h
    | error =>
      simp only [seenInitialB] at hseen
      simp only [initBeforeUpdateB] at h
      simp only [List.cons_append, initBeforeUpdateB]
      exact ih hseen h

lemma chronOf_cons_eq (ds : List (Nat × Delivery)) (t : Nat) (d : Delivery) :
    chronOf ((t, d) :: ds) t = chronOf ds t ++ [d] := by
  simp [chronOf, List.filter]

lemma chronOf_cons_ne (ds : List (Nat × Delivery)) (t u : Nat) (d : Delivery)
    (h : ¬ u = t) :
    chronOf ((u, d) :: ds) t = chronOf ds t := by
  simp [chronOf, List.filter, h]

lemma chronOf_empty_of_fresh (ds : List (Nat × Delivery)) (used : List Nat)
    (t : Nat) (hall : ∀ p ∈ ds, p.1 ∈ used) (hf : t ∉ used) :
    chronOf ds t = [] := by
  induction ds with
  | nil => rfl
  | cons p rest ih =>
    have hp : ¬ p.1 = t := by
      intro hc
      exact hf (hc ▸ hall p (List.mem_cons_self _ _))
    obtain ⟨u, d⟩ := p
    rw [chronOf_cons_ne rest t u d hp]
    exact ih fun q hq => hall q (List.mem_cons_of_mem _ hq)

lemma chronOf_deliverAll_not_mem (obs : List Obs) (d : Delivery)
    (ds : List (Nat × Delivery)) (t : Nat)
    (hm : t ∉ obs.map Obs.tok) :
    chronOf (deliverAll obs d ds) t = chronOf ds t := by
  induction obs with
  | nil => rfl
  | cons o rest ih =>
    simp only [List.map_cons, List.mem_cons, not_or] at hm
    show chronOf ((o.tok, d) :: deliverAll rest d ds) t = chronOf ds t
    rw [chronOf_cons_ne _ t o.tok d (fun hc => hm.1 hc.symm)]
    exact ih hm.2

lemma chronOf_deliverAll_mem (obs : List Obs) (d : Delivery)
    (ds : List (Nat × Delivery)) (t : Nat)
    (hnd : (obs.map Obs.tok).Nodup) (hm : t ∈ obs.map Obs.tok) :
    chronOf (deliverAll obs d ds) t = chronOf ds t ++ [d] := by
  induction obs with
  | nil => cases hm
  | cons o rest ih =>
    simp only [List.map_cons, List.nodup_cons] at hnd
    rcases List.mem_cons.mp hm with hc | hc
    · show chronOf ((o.tok, d) :: deliverAll rest d ds) t = chronOf ds t ++ [d]
      rw [hc, chronOf_cons_eq, chronOf_deliverAll_not_mem rest d ds o.tok hnd.1]
    · have hnt : ¬ o.tok = t := by
        intro hc2
        exact hnd.1 (hc2 ▸ hc)
      show chronOf ((o.tok, d) :: deliverAll rest d ds) t = chronOf ds t ++ [d]
      rw [chronOf_cons_ne _ t o.tok d hnt]
      exact ih hnd.2 hc

lemma alistLookup_mem {α : Type} :
    ∀ (rs : List (String × α)) (id : String) (e : α),
      alistLookup rs id = some e → (id, e) ∈ rs := by
  intro rs
  induction rs with
  | nil => intro id e h; cases h
  | cons p rest ih =>
    intro id e h
    by_cases hp : p.1 = id
    · simp only [alistLookup, if_pos hp] at h
      injection h with h2
      have hpe : (id, e) = p := by
        obtain ⟨a, b⟩ := p
        simp only at hp h2
        rw [hp, h2]
      rw [hpe]
      exact List.mem_cons_self _ _
    · simp only [alistLookup, if_neg hp] at h
      exact List.mem_cons_of_mem _ (ih id e h)

lemma mem_alistSet {α : Type} :
    ∀ (rs : List (String × α)) (id : String) (v : α) (q : String × α),
      q ∈ alistSet rs id v → q = (id, v) ∨ q ∈ rs := by
  intro rs
  induction rs with
  | nil => intro id v q h; cases h
  | cons p rest ih =>
    intro id v q h
    by_cases hp : p.1 = id
    · simp only [alistSet, if_pos hp] at h
      rcases List.mem_cons.mp h with hc | hc
      · exact Or.inl hc
      · exact Or.inr (List.mem_cons_of_mem _ hc)
    · simp only [alistSet, if_neg hp] at h
      rcases List.mem_cons.mp h with hc | hc
      · exact Or.inr (hc ▸ List.mem_cons_self _ _)
      · rcases ih id v q hc with hd | hd
        · exact Or.inl hd
        · exact Or.inr (List.mem_cons_of_mem _ hd)

lemma mem_alistDelete {α : Type} :
    ∀ (rs : List (String × α)) (id : String) (q : String × α),
      q ∈ alistDelete rs id → q ∈ rs := by
  intro rs
  induction rs with
  | nil => intro id q h; cases h
  | cons p rest ih =>
    intro id q h
    by_cases hp : p.1 = id
    · simp only [alistDelete, if_pos hp] at h
      exact List.mem_cons_of_mem _ h
    · simp only [alistDelete, if_neg hp] at h
      rcases List.mem_cons.mp h with hc | hc
      · exact hc ▸ List.mem_cons_self _ _
      · exact List.mem_cons_of_mem _ (ih id q hc)

/-- The C6 inductive invariant carried through every reachable state (with
fresh subscription tokens): history bookkeeping is consistent (`beforeFirst`
and every delivered or attached token is in `used`), per-entry observer tokens
are distinct, a live entry always holds a replay buffer, every token that
subscribed before its generation's first snapshot has seen no update-derived
snapshot before the first initial one, and such a token attached to a live
entry has already seen the initial snapshot. -/
def C6Inv (s : AdapterState) : Prop :=
  (∀ t ∈ s.beforeFirst, t ∈ s.used) ∧
  (∀ p ∈ s.deliveries, p.1 ∈ s.used) ∧
  (∀ q ∈ s.rooms, ∀ ob ∈ (q.2 : RoomEntry).observers, ob.tok ∈ s.used) ∧
  (∀ q ∈ s.rooms, (((q.2 : RoomEntry).observers.map Obs.tok)).Nodup) ∧
  (∀ q ∈ s.rooms, (q.2 : RoomEntry).phase = Phase.live →
    ((q.2 : RoomEntry).replay.isSome = true)) ∧
  (∀ t ∈ s.beforeFirst, initBeforeUpdateB (chron s t) = true) ∧
  (∀ q ∈ s.rooms, (q.2 : RoomEntry).phase = Phase.live →
    ∀ ob ∈ (q.2 : RoomEntry).observers, ob.tok ∈ s.beforeFirst →
      seenInitialB (chron s ob.tok) = true)

lemma c6inv_getRoom (s : AdapterState) (id : String) (h : C6Inv s) :
    C6Inv (step s (Ev.getRoomCall id)) := by
  obtain ⟨hA, hB, hC, hJ, hH, hD, hE⟩ := h
  cases hl : alistLookup s.rooms id with
  | some e => rw [step_getRoom_hit s id e hl]; exact ⟨hA, hB, hC, hJ, hH, hD, hE⟩
  | none =>
    rw [step_getRoom_miss s id hl]
    refine ⟨hA, hB, ?_, ?_, ?_, hD, ?_⟩
    · intro q hq ob hob
      rcases List.mem_cons.mp hq with hc | hc
      · rw [hc] at hob; cases hob
      · exact hC q hc ob hob
    · intro q hq
      rcases List.mem_cons.mp hq with hc | hc
      · rw [hc]; exact List.nodup_nil
      · exact hJ q hc
    · intro q hq hlive
      rcases List.mem_cons.mp hq with hc | hc
      · rw [hc] at hlive; cases hlive
      · exact hH q hc hlive
    · intro q hq hlive ob hob hbf
      rcases List.mem_cons.mp hq with hc | hc
      · rw [hc] at hlive; cases hlive
      · exact hE q hc hlive ob hob hbf

lemma deliverAll_fst_mem (obs : List Obs) (d : Delivery)
    (ds : List (Nat × Delivery)) (p : Nat × Delivery)
    (hp : p ∈ deliverAll obs d ds) :
    p.1 ∈ obs.map Obs.tok ∨ p ∈ ds := by
  rcases List.mem_append.mp hp with hc | hc
  · left
    obtain ⟨ob, hob, hobp⟩ := List.mem_map.mp hc
    rw [← hobp]
    exact List.mem_map_of_mem Obs.tok hob
  · exact Or.inr hc

lemma Dpres_initial (obs : List Obs) (r : Room) (ds : List (Nat × Delivery))
    (bf : List Nat) (hnd : (obs.map Obs.tok).Nodup)
    (hD : ∀ t ∈ bf, initBeforeUpdateB (chronOf ds t) = true) :
    ∀ t ∈ bf, initBeforeUpdateB (chronOf
      (deliverAll obs (Delivery.value { origin := Origin.initial, room := r })
        ds) t) = true := by
  intro t ht
  by_cases hm : t ∈ obs.map Obs.tok
  · rw [chronOf_deliverAll_mem obs _ ds t hnd hm]
    exact initBeforeUpdateB_append_initial _ r (hD t ht)
  · rw [chronOf_deliverAll_not_mem obs _ ds t hm]
    exact hD t ht

lemma Dpres_error (obs : List Obs) (ds : List (Nat × Delivery))
    (bf : List Nat) (hnd : (obs.map Obs.tok).Nodup)
    (hD : ∀ t ∈ bf, initBeforeUpdateB (chronOf ds t) = true) :
    ∀ t ∈ bf, initBeforeUpdateB (chronOf
      (deliverAll obs Delivery.error ds) t) = true := by
  intro t ht
  by_cases hm : t ∈ obs.map Obs.tok
  · rw [chronOf_deliverAll_mem obs _ ds t hnd hm,
      initBeforeUpdateB_append_error]
    exact hD t ht
  · rw [chronOf_deliverAll_not_mem obs _ ds t hm]
    exact hD t ht

lemma Epres_extend (obs : List Obs) (d : Delivery)
    (ds : List (Nat × Delivery)) (t : Nat) (hnd : (obs.map Obs.tok).Nodup)
    (hseen : seenInitialB (chronOf ds t) = true) :
    seenInitialB (chronOf (deliverAll obs d ds) t) = true := by
  by_cases hm : t ∈ obs.map Obs.tok
  · rw [chronOf_deliverAll_mem obs d ds t hnd hm]
    exact seenInitialB_append_left _ _ hseen
  · rw [chronOf_deliverAll_not_mem obs d ds t hm]
    exact hseen

lemma seen_initial_batch (obs : List Obs) (r : Room)
    (ds : List (Nat × Delivery)) (t : Nat) (hnd : (obs.map Obs.tok).Nodup)
    (hm : t ∈ obs.map Obs.tok) :
    seenInitialB (chronOf
      (deliverAll obs (Delivery.value { origin := Origin.initial, room := r })
        ds) t) = true := by
  rw [chronOf_deliverAll_mem obs _ ds t hnd hm]
  exact seenInitialB_append_initial _ r

lemma c6inv_subscribe (s : AdapterState) (id : String) (tok : Nat)
    (h : C6Inv s) (hfresh : tok ∉ s.used) :
    C6Inv (step s (Ev.subscribe id tok)) := by
  obtain ⟨hA, hB, hC, hJ, hH, hD, hE⟩ := h
  cases hl : alistLookup s.rooms id with
  | none =>
    rw [step_subscribe_none s id tok hl]
    exact ⟨hA, hB, hC, hJ, hH, hD, hE⟩
  | some e =>
    have hmem : (id, e) ∈ s.rooms := alistLookup_mem s.rooms id e hl
    have hCe : ∀ ob ∈ e.observers, ob.tok ∈ s.used := hC (id, e) hmem
    have hJe : (e.observers.map Obs.tok).Nodup := hJ (id, e) hmem
    have htokobs : tok ∉ e.observers.map Obs.tok := by
      intro hc
      obtain ⟨ob, hob, hobtok⟩ := List.mem_map.mp hc
      exact hfresh (hobtok ▸ hCe ob hob)
    have htokbf : tok ∉ s.beforeFirst := fun hc => hfresh (hA tok hc)
    have hchronTok : chronOf s.deliveries tok = [] :=
      chronOf_empty_of_fresh s.deliveries s.used tok hB hfresh
    cases hc : e.connected with
    | true =>
      cases hre : e.replay with
      | some v =>
        rw [step_subscribe_replay_connected s id tok e v hl hre hc]
        refine ⟨?_, ?_, ?_, ?_, ?_, ?_, ?_⟩
        · exact fun t ht => List.mem_cons_of_mem _ (hA t ht)
        · intro p hp
          rcases List.mem_cons.mp hp with hp2 | hp2
          · rw [hp2]; exact List.mem_cons_self _ _
          · exact List.mem_cons_of_mem _ (hB p hp2)
        · intro q hq ob hob
          rcases mem_alistSet s.rooms id _ q hq with hq2 | hq2
          · rw [hq2] at hob
            rcases List.mem_cons.mp hob with hob2 | hob2
            · rw [hob2]; exact List.mem_cons_self _ _
            · exact List.mem_cons_of_mem _ (hCe ob hob2)
          · exact List.mem_cons_of_mem _ (hC q hq2 ob hob)
        · intro q hq
          rcases mem_alistSet s.rooms id _ q hq with hq2 | hq2
          · rw [hq2]
            exact List.nodup_cons.mpr ⟨htokobs, hJe⟩
          · exact hJ q hq2
        · intro q hq hlive
          rcases mem_alistSet s.rooms id _ q hq with hq2 | hq2
          · rw [hq2]
            show e.replay.isSome = true
            rw [hre]; rfl
          · exact hH q hq2 hlive
        · intro t ht
          show initBeforeUpdateB
            (chronOf ((tok, Delivery.value v) :: s.deliveries) t) = true
          rw [chronOf_cons_ne _ t tok _ (fun hc2 => htokbf (hc2 ▸ ht))]
          exact hD t ht
        · intro q hq hlive ob hob hbf
          have hobne : ¬ tok = ob.tok := by
            intro hc2
            exact htokbf (hc2 ▸ hbf)
          show seenInitialB
            (chronOf ((tok, Delivery.value v) :: s.deliveries) ob.tok) = true
          rw [chronOf_cons_ne _ ob.tok tok _ hobne]
          rcases mem_alistSet s.rooms id _ q hq with hq2 | hq2
          · rw [hq2] at hlive hob
            rcases List.mem_cons.mp hob with hob2 | hob2
            · exfalso
              rw [hob2] at hbf
              exact htokbf hbf
            · exact hE (id, e) hmem hlive ob hob2 hbf
          · exact hE q hq2 hlive ob hob hbf
      | none =>
        rw [step_subscribe_nobuf_connected s id tok e hl hre hc]
        have hnotlive : ¬ e.phase = Phase.live := by
          intro hlive
          have := hH (id, e) hmem hlive
          rw [hre] at this
          cases this
        refine ⟨?_, ?_, ?_, ?_, ?_, ?_, ?_⟩
        · intro t ht
          rcases List.mem_cons.mp ht with ht2 | ht2
          · rw [ht2]; exact List.mem_cons_self _ _
          · exact List.mem_cons_of_mem _ (hA t ht2)
        · exact fun p hp => List.mem_cons_of_mem _ (hB p hp)
        · intro q hq ob hob
          rcases mem_alistSet s.rooms id _ q hq with hq2 | hq2
          · rw [hq2] at hob
            rcases List.mem_cons.mp hob with hob2 | hob2
            · rw [hob2]; exact List.mem_cons_self _ _
            · exact List.mem_cons_of_mem _ (hCe ob hob2)
          · exact List.mem_cons_of_mem _ (hC q hq2 ob hob)
        · intro q hq
          rcases mem_alistSet s.rooms id _ q hq with hq2 | hq2
          · rw [hq2]
            exact List.nodup_cons.mpr ⟨htokobs, hJe⟩
          · exact hJ q hq2
        · intro q hq hlive
          rcases mem_alistSet s.rooms id _ q hq with hq2 | hq2
          · exfalso
            rw [hq2] at hlive
            exact hnotlive hlive
          · exact hH q hq2 hlive
        · intro t ht
          rcases List.mem_cons.mp ht with ht2 | ht2
          · show initBeforeUpdateB (chronOf s.deliveries t) = true
            rw [ht2, hchronTok]
            rfl
          · exact hD t ht2
        · intro q hq hlive ob hob hbf
          rcases mem_alistSet s.rooms id _ q hq with hq2 | hq2
          · exfalso
            rw [hq2] at hlive
            exact hnotlive hlive
          · have hbf2 : ob.tok ∈ s.beforeFirst := by
              rcases List.mem_cons.mp hbf with hbf3 | hbf3
              · exfalso
                exact hfresh (hbf3 ▸ hC q hq2 ob hob)
              · exact hbf3
            exact hE q hq2 hlive ob hob hbf2
    | false =>
      cases hfr : e.fetchResult with
      | none =>
        cases hre : e.replay with
        | none =>
          rw [step_subscribe_connect_pending s id tok e true hl hc hfr
            (by rw [hre]; rfl)]
          rw [hre]
          have hnotlive : ¬ e.phase = Phase.live := by
            intro hlive
            have := hH (id, e) hmem hlive
            rw [hre] at this
            cases this
          refine ⟨?_, ?_, ?_, ?_, ?_, ?_, ?_⟩
          · intro t ht
            have ht2 : t ∈ tok :: s.beforeFirst := ht
            rcases List.mem_cons.mp ht2 with ht3 | ht3
            · rw [ht3]; exact List.mem_cons_self _ _
            · exact List.mem_cons_of_mem _ (hA t ht3)
          · exact fun p hp => List.mem_cons_of_mem _ (hB p hp)
          · intro q hq ob hob
            rcases mem_alistSet s.rooms id _ q hq with hq2 | hq2
            · rw [hq2] at hob
              rcases List.mem_cons.mp hob with hob2 | hob2
              · rw [hob2]; exact List.mem_cons_self _ _
              · exact List.mem_cons_of_mem _ (hCe ob hob2)
            · exact List.mem_cons_of_mem _ (hC q hq2 ob hob)
          · intro q hq
            rcases mem_alistSet s.rooms id _ q hq with hq2 | hq2
            · rw [hq2]
              exact List.nodup_cons.mpr ⟨htokobs, hJe⟩
            · exact hJ q hq2
          · intro q hq hlive
            rcases mem_alistSet s.rooms id _ q hq with hq2 | hq2
            · exfalso
              rw [hq2] at hlive
              exact hnotlive hlive
            · exact hH q hq2 hlive
          · intro t ht
            have ht2 : t ∈ tok :: s.beforeFirst := ht
            rcases List.mem_cons.mp ht2 with ht3 | ht3
            · show initBeforeUpdateB (chronOf s.deliveries t) = true
              rw [ht3, hchronTok]
              rfl
            · exact hD t ht3
          · intro q hq hlive ob hob hbf
            rcases mem_alistSet s.rooms id _ q hq with hq2 | hq2
            · exfalso
              rw [hq2] at hlive
              exact hnotlive hlive
            · have hbf2 : ob.tok ∈ s.beforeFirst := by
                have hbf3 : ob.tok ∈ tok :: s.beforeFirst := hbf
                rcases List.mem_cons.mp hbf3 with hbf4 | hbf4
                · exfalso
                  exact hfresh (hbf4 ▸ hC q hq2 ob hob)
                · exact hbf4
              exact hE q hq2 hlive ob hob hbf2
        | some v =>
          rw [step_subscribe_connect_pending s id tok e false hl hc hfr
            (by rw [hre]; rfl)]
          rw [hre]
          refine ⟨?_, ?_, ?_, ?_, ?_, ?_, ?_⟩
          · intro t ht
            have ht2 : t ∈ s.beforeFirst := ht
            exact List.mem_cons_of_mem _ (hA t ht2)
          · intro p hp
            have hp2 : p ∈ (tok, Delivery.value v) :: s.deliveries := hp
            rcases List.mem_cons.mp hp2 with hp3 | hp3
            · rw [hp3]; exact List.mem_cons_self _ _
            · exact List.mem_cons_of_mem _ (hB p hp3)
          · intro q hq ob hob
            rcases mem_alistSet s.rooms id _ q hq with hq2 | hq2
            · rw [hq2] at hob
              rcases List.mem_cons.mp hob with hob2 | hob2
              · rw [hob2]; exact List.mem_cons_self _ _
              · exact List.mem_cons_of_mem _ (hCe ob hob2)
            · exact List.mem_cons_of_mem _ (hC q hq2 ob hob)
          · intro q hq
            rcases mem_alistSet s.rooms id _ q hq with hq2 | hq2
            · rw [hq2]
              exact List.nodup_cons.mpr ⟨htokobs, hJe⟩
            · exact hJ q hq2
          · intro q hq hlive
            rcases mem_alistSet s.rooms id _ q hq with hq2 | hq2
            · rw [hq2]
              rfl
            · exact hH q hq2 hlive
          · intro t ht
            have ht2 : t ∈ s.beforeFirst := ht
            show initBeforeUpdateB
              (chronOf ((tok, Delivery.value v) :: s.deliveries) t) = true
            rw [chronOf_cons_ne _ t tok _ (fun hc2 => htokbf (hc2 ▸ ht2))]
            exact hD t ht2
          · intro q hq hlive ob hob hbf
            have hbf2 : ob.tok ∈ s.beforeFirst := hbf
            have hobne : ¬ tok = ob.tok := fun hc2 => htokbf (hc2 ▸ hbf2)
            show seenInitialB
              (chronOf ((tok, Delivery.value v) :: s.deliveries) ob.tok) = true
            rw [chronOf_cons_ne _ ob.tok tok _ hobne]
            rcases mem_alistSet s.rooms id _ q hq with hq2 | hq2
            · rw [hq2] at hlive hob
              rcases List.mem_cons.mp hob with hob2 | hob2
              · exfalso
                rw [hob2] at hbf2
                exact htokbf hbf2
              · exact hE (id, e) hmem hlive ob hob2 hbf2
            · exact hE q hq2 hlive ob hob hbf
      | some fo =>
        cases fo with
        | ok r =>
          cases hre : e.replay with
          | none =>
            rw [step_subscribe_connect_resolved s id tok e r true hl hc hfr
              (by rw [hre]; rfl)]
            rw [hre]
            have hobs1nd :
                ((({ tok := tok, joinedBeforeFirst := true } : Obs)
                  :: e.observers).map Obs.tok).Nodup :=
              List.nodup_cons.mpr ⟨htokobs, hJe⟩
            have htokmem : tok ∈ (({ tok := tok, joinedBeforeFirst := true } : Obs)
                :: e.observers).map Obs.tok := by
              simp
            refine ⟨?_, ?_, ?_, ?_, ?_, ?_, ?_⟩
            · intro t ht
              have ht2 : t ∈ tok :: s.beforeFirst := ht
              rcases List.mem_cons.mp ht2 with ht3 | ht3
              · rw [ht3]; exact List.mem_cons_self _ _
              · exact List.mem_cons_of_mem _ (hA t ht3)
            · intro p hp
              rcases deliverAll_fst_mem _ _ _ p hp with hp2 | hp2
              · have hp3 : p.1 ∈ tok :: e.observers.map Obs.tok := hp2
                rcases List.mem_cons.mp hp3 with hp4 | hp4
                · rw [hp4]; exact List.mem_cons_self _ _
                · obtain ⟨ob, hob, hobtok⟩ := List.mem_map.mp hp4
                  exact List.mem_cons_of_mem _ (hobtok ▸ hCe ob hob)
              · exact List.mem_cons_of_mem _ (hB p hp2)
            · intro q hq ob hob
              rcases mem_alistSet s.rooms id _ q hq with hq2 | hq2
              · rw [hq2] at hob
                rcases List.mem_cons.mp hob with hob2 | hob2
                · rw [hob2]; exact List.mem_cons_self _ _
                · exact List.mem_cons_of_mem _ (hCe ob hob2)
              · exact List.mem_cons_of_mem _ (hC q hq2 ob hob)
            · intro q hq
              rcases mem_alistSet s.rooms id _ q hq with hq2 | hq2
              · rw [hq2]
                exact List.nodup_cons.mpr ⟨htokobs, hJe⟩
              · exact hJ q hq2
            · intro q hq hlive
              rcases mem_alistSet s.rooms id _ q hq with hq2 | hq2
              · rw [hq2]
                rfl
              · exact hH q hq2 hlive
            · intro t ht
              have ht2 : t ∈ tok :: s.beforeFirst := ht
              rcases List.mem_cons.mp ht2 with ht3 | ht3
              · show initBeforeUpdateB (chronOf (deliverAll
                  ({ tok := tok, joinedBeforeFirst := true } :: e.observers)
                  (Delivery.value { origin := Origin.initial, room := fetchRoom r })
                  s.deliveries) t) = true
                rw [ht3, chronOf_deliverAll_mem _ _ _ tok hobs1nd htokmem,
                  hchronTok]
                rfl
              · exact Dpres_initial _ (fetchRoom r) s.deliveries s.beforeFirst
                  hobs1nd hD t ht3
            · intro q hq hlive ob hob hbf
              rcases mem_alistSet s.rooms id _ q hq with hq2 | hq2
              · rw [hq2] at hob
                exact seen_initial_batch _ (fetchRoom r) s.deliveries ob.tok
                  hobs1nd (List.mem_map_of_mem Obs.tok hob)
              · have hbf2 : ob.tok ∈ s.beforeFirst := by
                  have hbf3 : ob.tok ∈ tok :: s.beforeFirst := hbf
                  rcases List.mem_cons.mp hbf3 with hbf4 | hbf4
                  · exfalso
                    exact hfresh (hbf4 ▸ hC q hq2 ob hob)
                  · exact hbf4
                exact Epres_extend _ _ s.deliveries ob.tok hobs1nd
                  (hE q hq2 hlive ob hob hbf2)
          | some v =>
            rw [step_subscribe_connect_resolved s id tok e r false hl hc hfr
              (by rw [hre]; rfl)]
            rw [hre]
            have hobs1nd :
                ((({ tok := tok, joinedBeforeFirst := false } : Obs)
                  :: e.observers).map Obs.tok).Nodup :=
              List.nodup_cons.mpr ⟨htokobs, hJe⟩
            refine ⟨?_, ?_, ?_, ?_, ?_, ?_, ?_⟩
            · intro t ht
              have ht2 : t ∈ s.beforeFirst := ht
              exact List.mem_cons_of_mem _ (hA t ht2)
            · intro p hp
              rcases deliverAll_fst_mem _ _ _ p hp with hp2 | hp2
              · have hp3 : p.1 ∈ tok :: e.observers.map Obs.tok := hp2
                rcases List.mem_cons.mp hp3 with hp4 | hp4
                · rw [hp4]; exact List.mem_cons_self _ _
                · obtain ⟨ob, hob, hobtok⟩ := List.mem_map.mp hp4
                  exact List.mem_cons_of_mem _ (hobtok ▸ hCe ob hob)
              · have hp3 : p ∈ (tok, Delivery.value v) :: s.deliveries := hp2
                rcases List.mem_cons.mp hp3 with hp4 | hp4
                · rw [hp4]; exact List.mem_cons_self _ _
                · exact List.mem_cons_of_mem _ (hB p hp4)
            · intro q hq ob hob
              rcases mem_alistSet s.rooms id _ q hq with hq2 | hq2
              · rw [hq2] at hob
                rcases List.mem_cons.mp hob with hob2 | hob2
                · rw [hob2]; exact List.mem_cons_self _ _
                · exact List.mem_cons_of_mem _ (hCe ob hob2)
              · exact List.mem_cons_of_mem _ (hC q hq2 ob hob)
            · intro q hq
              rcases mem_alistSet s.rooms id _ q hq with hq2 | hq2
              · rw [hq2]
                exact List.nodup_cons.mpr ⟨htokobs, hJe⟩
              · exact hJ q hq2
            · intro q hq hlive
              rcases mem_alistSet s.rooms id _ q hq with hq2 | hq2
              · rw [hq2]
                rfl
              · exact hH q hq2 hlive
            · intro t ht
              have ht2 : t ∈ s.beforeFirst := ht
              have hD0 : ∀ u ∈ s.beforeFirst, initBeforeUpdateB
                  (chronOf ((tok, Delivery.value v) :: s.deliveries) u) = true := by
                intro u hu
                rw [chronOf_cons_ne _ u tok _ (fun hc2 => htokbf (hc2 ▸ hu))]
                exact hD u hu
              exact Dpres_initial _ (fetchRoom r) _ s.beforeFirst hobs1nd hD0 t ht2
            · intro q hq hlive ob hob hbf
              have hbf2 : ob.tok ∈ s.beforeFirst := hbf
              rcases mem_alistSet s.rooms id _ q hq with hq2 | hq2
              · rw [hq2] at hob
                exact seen_initial_batch _ (fetchRoom r) _ ob.tok hobs1nd
                  (List.mem_map_of_mem Obs.tok hob)
              · have hobne : ¬ tok = ob.tok := fun hc2 => htokbf (hc2 ▸ hbf2)
                have hseen0 : seenInitialB
                    (chronOf ((tok, Delivery.value v) :: s.deliveries) ob.tok)
                      = true := by
                  rw [chronOf_cons_ne _ ob.tok tok _ hobne]
                  exact hE q hq2 hlive ob hob hbf2
                exact Epres_extend _ _ _ ob.tok hobs1nd hseen0
        | failed =>
          cases hre : e.replay with
          | none =>
            rw [step_subscribe_connect_failed s id tok e true hl hc hfr
              (by rw [hre]; rfl)]
            rw [hre]
            have hobs1nd :
                ((({ tok := tok, joinedBeforeFirst := true } : Obs)
                  :: e.observers).map Obs.tok).Nodup :=
              List.nodup_cons.mpr ⟨htokobs, hJe⟩
            have htokmem : tok ∈ (({ tok := tok, joinedBeforeFirst := true } : Obs)
                :: e.observers).map Obs.tok := by
              simp
            refine ⟨?_, ?_, ?_, ?_, ?_, ?_, ?_⟩
            · intro t ht
              have ht2 : t ∈ tok :: s.beforeFirst := ht
              rcases List.mem_cons.mp ht2 with ht3 | ht3
              · rw [ht3]; exact List.mem_cons_self _ _
              · exact List.mem_cons_of_mem _ (hA t ht3)
            · intro p hp
              rcases deliverAll_fst_mem _ _ _ p hp with hp2 | hp2
              · have hp3 : p.1 ∈ tok :: e.observers.map Obs.tok := hp2
                rcases List.mem_cons.mp hp3 with hp4 | hp4
                · rw [hp4]; exact List.mem_cons_self _ _
                · obtain ⟨ob, hob, hobtok⟩ := List.mem_map.mp hp4
                  exact List.mem_cons_of_mem _ (hobtok ▸ hCe ob hob)
              · exact List.mem_cons_of_mem _ (hB p hp2)
            · intro q hq ob hob
              exact List.mem_cons_of_mem _
                (hC q (mem_alistDelete s.rooms id q hq) ob hob)
            · intro q hq
              exact hJ q (mem_alistDelete s.rooms id q hq)
            · intro q hq hlive
              exact hH q (mem_alistDelete s.rooms id q hq) hlive
            · intro t ht
              have ht2 : t ∈ tok :: s.beforeFirst := ht
              rcases List.mem_cons.mp ht2 with ht3 | ht3
              · show initBeforeUpdateB (chronOf (deliverAll
                  ({ tok := tok, joinedBeforeFirst := true } :: e.observers)
                  Delivery.error s.deliveries) t) = true
                rw [ht3, chronOf_deliverAll_mem _ _ _ tok hobs1nd htokmem,
                  hchronTok]
                rfl
              · exact Dpres_error _ s.deliveries s.beforeFirst hobs1nd hD t ht3
            · intro q hq hlive ob hob hbf
              have hq2 := mem_alistDelete s.rooms id q hq
              have hbf2 : ob.tok ∈ s.beforeFirst := by
                have hbf3 : ob.tok ∈ tok :: s.beforeFirst := hbf
                rcases List.mem_cons.mp hbf3 with hbf4 | hbf4
                · exfalso
                  exact hfresh (hbf4 ▸ hC q hq2 ob hob)
                · exact hbf4
              exact Epres_extend _ _ s.deliveries ob.tok hobs1nd
                (hE q hq2 hlive ob hob hbf2)
          | some v =>
            rw [step_subscribe_connect_failed s id tok e false hl hc hfr
              (by rw [hre]; rfl)]
            rw [hre]
            have hobs1nd :
                ((({ tok := tok, joinedBeforeFirst := false } : Obs)
                  :: e.observers).map Obs.tok).Nodup :=
              List.nodup_cons.mpr ⟨htokobs, hJe⟩
            refine ⟨?_, ?_, ?_, ?_, ?_, ?_, ?_⟩
            · intro t ht
              have ht2 : t ∈ s.beforeFirst := ht
              exact List.mem_cons_of_mem _ (hA t ht2)
            · intro p hp
              rcases deliverAll_fst_mem _ _ _ p hp with hp2 | hp2
              · have hp3 : p.1 ∈ tok :: e.observers.map Obs.tok := hp2
                rcases List.mem_cons.mp hp3 with hp4 | hp4
                · rw [hp4]; exact List.mem_cons_self _ _
                · obtain ⟨ob, hob, hobtok⟩ := List.mem_map.mp hp4
                  exact List.mem_cons_of_mem _ (hobtok ▸ hCe ob hob)
              · have hp3 : p ∈ (tok, Delivery.value v) :: s.deliveries := hp2
                rcases List.mem_cons.mp hp3 with hp4 | hp4
                · rw [hp4]; exact List.mem_cons_self _ _
                · exact List.mem_cons_of_mem _ (hB p hp4)
            · intro q hq ob hob
              exact List.mem_cons_of_mem _
                (hC q (mem_alistDelete s.rooms id q hq) ob hob)
            · intro q hq
              exact hJ q (mem_alistDelete s.rooms id q hq)
            · intro q hq hlive
              exact hH q (mem_alistDelete s.rooms id q hq) hlive
            · intro t ht
              have ht2 : t ∈ s.beforeFirst := ht
              have hD0 : ∀ u ∈ s.beforeFirst, initBeforeUpdateB
                  (chronOf ((tok, Delivery.value v) :: s.deliveries) u) = true := by
                intro u hu
                rw [chronOf_cons_ne _ u tok _ (fun hc2 => htokbf (hc2 ▸ hu))]
                exact hD u hu
              exact Dpres_error _ _ s.beforeFirst hobs1nd hD0 t ht2
            · intro q hq hlive ob hob hbf
              have hq2 := mem_alistDelete s.rooms id q hq
              have hbf2 : ob.tok ∈ s.beforeFirst := hbf
              have hobne : ¬ tok = ob.tok := fun hc2 => htokbf (hc2 ▸ hbf2)
              have hseen0 : seenInitialB
                  (chronOf ((tok, Delivery.value v) :: s.deliveries) ob.tok)
                    = true := by
                rw [chronOf_cons_ne _ ob.tok tok _ hobne]
                exact hE q hq2 hlive ob hob hbf2
              exact Epres_extend _ _ _ ob.tok hobs1nd hseen0

lemma c6inv_unsubscribe (s : AdapterState) (id : String) (tok : Nat)
    (h : C6Inv s) : C6Inv (step s (Ev.unsubscribe id tok)) := by
  obtain ⟨hA, hB, hC, hJ, hH, hD, hE⟩ := h
  cases hl : alistLookup s.rooms id with
  | none =>
    rw [step_unsubscribe_none s id tok hl]
    exact ⟨hA, hB, hC, hJ, hH, hD, hE⟩
  | some e =>
    by_cases hm : tok ∈ e.observers.map Obs.tok
    · cases hcase : ((e.observers.filter fun o => !decide (o.tok = tok)).isEmpty
          && e.connected) with
      | true =>
        rw [step_unsubscribe_last s id tok e hl hm hcase]
        refine ⟨hA, hB, ?_, ?_, ?_, hD, ?_⟩
        · intro q hq ob hob
          exact hC q (mem_alistDelete s.rooms id q hq) ob hob
        · intro q hq
          exact hJ q (mem_alistDelete s.rooms id q hq)
        · intro q hq hlive
          exact hH q (mem_alistDelete s.rooms id q hq) hlive
        · intro q hq hlive ob hob hbf
          exact hE q (mem_alistDelete s.rooms id q hq) hlive ob hob hbf
      | false =>
        rw [step_unsubscribe_stay s id tok e hl hm hcase]
        refine ⟨hA, hB, ?_, ?_, ?_, hD, ?_⟩
        · intro q hq ob hob
          rcases mem_alistSet s.rooms id _ q hq with hq2 | hq2
          · rw [hq2] at hob
            exact hC (id, e) (alistLookup_mem s.rooms id e hl) ob
              (List.mem_of_mem_filter hob)
          · exact hC q hq2 ob hob
        · intro q hq
          rcases mem_alistSet s.rooms id _ q hq with hq2 | hq2
          · rw [hq2]
            exact (hJ (id, e) (alistLookup_mem s.rooms id e hl)).sublist
              ((List.filter_sublist _).map Obs.tok)
          · exact hJ q hq2
        · intro q hq hlive
          rcases mem_alistSet s.rooms id _ q hq with hq2 | hq2
          · rw [hq2]
            rw [hq2] at hlive
            exact hH (id, e) (alistLookup_mem s.rooms id e hl) hlive
          · exact hH q hq2 hlive
        · intro q hq hlive ob hob hbf
          rcases mem_alistSet s.rooms id _ q hq with hq2 | hq2
          · rw [hq2] at hlive hob
            exact hE (id, e) (alistLookup_mem s.rooms id e hl) hlive ob
              (List.mem_of_mem_filter hob) hbf
          · exact hE q hq2 hlive ob hob hbf
    · rw [step_unsubscribe_not_mem s id tok e hl hm]
      exact ⟨hA, hB, hC, hJ, hH, hD, hE⟩

lemma c6inv_fetchResolve (s : AdapterState) (id : String) (r : SDKRoom)
    (h : C6Inv s) : C6Inv (step s (Ev.fetchResolve id r)) := by
  obtain ⟨hA, hB, hC, hJ, hH, hD, hE⟩ := h
  cases hl : alistLookup s.rooms id with
  | none =>
    rw [step_fetchResolve_none s id r hl]
    exact ⟨hA, hB, hC, hJ, hH, hD, hE⟩
  | some e =>
    have hmem : (id, e) ∈ s.rooms := alistLookup_mem s.rooms id e hl
    have hCe : ∀ ob ∈ e.observers, ob.tok ∈ s.used := hC (id, e) hmem
    have hJe : (e.observers.map Obs.tok).Nodup := hJ (id, e) hmem
    cases hp : e.phase with
    | live =>
      rw [step_fetchResolve_notFetching s id r e hl hp]
      exact ⟨hA, hB, hC, hJ, hH, hD, hE⟩
    | fetching =>
      cases hc : e.connected with
      | true =>
        rw [step_fetchResolve_connected s id r e hl hp hc]
        refine ⟨hA, ?_, ?_, ?_, ?_, ?_, ?_⟩
        · intro p hp2
          rcases deliverAll_fst_mem _ _ _ p hp2 with hp3 | hp3
          · obtain ⟨ob, hob, hobtok⟩ := List.mem_map.mp hp3
            exact hobtok ▸ hCe ob hob
          · exact hB p hp3
        · intro q hq ob hob
          rcases mem_alistSet s.rooms id _ q hq with hq2 | hq2
          · rw [hq2] at hob
            exact hCe ob hob
          · exact hC q hq2 ob hob
        · intro q hq
          rcases mem_alistSet s.rooms id _ q hq with hq2 | hq2
          · rw [hq2]
            exact hJe
          · exact hJ q hq2
        · intro q hq hlive
          rcases mem_alistSet s.rooms id _ q hq with hq2 | hq2
          · rw [hq2]
            rfl
          · exact hH q hq2 hlive
        · exact Dpres_initial e.observers (fetchRoom r) s.deliveries
            s.beforeFirst hJe hD
        · intro q hq hlive ob hob hbf
          rcases mem_alistSet s.rooms id _ q hq with hq2 | hq2
          · rw [hq2] at hob
            exact seen_initial_batch e.observers (fetchRoom r) s.deliveries
              ob.tok hJe (List.mem_map_of_mem Obs.tok hob)
          · exact Epres_extend e.observers _ s.deliveries ob.tok hJe
              (hE q hq2 hlive ob hob hbf)
      | false =>
        rw [step_fetchResolve_unconnected s id r e hl hp hc]
        refine ⟨hA, hB, ?_, ?_, ?_, hD, ?_⟩
        · intro q hq ob hob
          rcases mem_alistSet s.rooms id _ q hq with hq2 | hq2
          · rw [hq2] at hob
            exact hCe ob hob
          · exact hC q hq2 ob hob
        · intro q hq
          rcases mem_alistSet s.rooms id _ q hq with hq2 | hq2
          · rw [hq2]
            exact hJe
          · exact hJ q hq2
        · intro q hq hlive
          rcases mem_alistSet s.rooms id _ q hq with hq2 | hq2
          · exfalso
            rw [hq2] at hlive
            have hlive2 : e.phase = Phase.live := hlive
            rw [hp] at hlive2
            cases hlive2
          · exact hH q hq2 hlive
        · intro q hq hlive ob hob hbf
          rcases mem_alistSet s.rooms id _ q hq with hq2 | hq2
          · exfalso
            rw [hq2] at hlive
            have hlive2 : e.phase = Phase.live := hlive
            rw [hp] at hlive2
            cases hlive2
          · exact hE q hq2 hlive ob hob hbf

lemma c6inv_fetchReject (s : AdapterState) (id : String)
    (h : C6Inv s) : C6Inv (step s (Ev.fetchReject id)) := by
  obtain ⟨hA, hB, hC, hJ, hH, hD, hE⟩ := h
  cases hl : alistLookup s.rooms id with
  | none =>
    rw [step_fetchReject_none s id hl]
    exact ⟨hA, hB, hC, hJ, hH, hD, hE⟩
  | some e =>
    have hmem : (id, e) ∈ s.rooms := alistLookup_mem s.rooms id e hl
    have hCe : ∀ ob ∈ e.observers, ob.tok ∈ s.used := hC (id, e) hmem
    have hJe : (e.observers.map Obs.tok).Nodup := hJ (id, e) hmem
    cases hp : e.phase with
    | live =>
      rw [step_fetchReject_notFetching s id e hl hp]
      exact ⟨hA, hB, hC, hJ, hH, hD, hE⟩
    | fetching =>
      cases hc : e.connected with
      | true =>
        rw [step_fetchReject_connected s id e hl hp hc]
        refine ⟨hA, ?_, ?_, ?_, ?_, ?_, ?_⟩
        · intro p hp2
          rcases deliverAll_fst_mem _ _ _ p hp2 with hp3 | hp3
          · obtain ⟨ob, hob, hobtok⟩ := List.mem_map.mp hp3
            exact hobtok ▸ hCe ob hob
          · exact hB p hp3
        · intro q hq ob hob
          exact hC q (mem_alistDelete s.rooms id q hq) ob hob
        · intro q hq
          exact hJ q (mem_alistDelete s.rooms id q hq)
        · intro q hq hlive
          exact hH q (mem_alistDelete s.rooms id q hq) hlive
        · exact Dpres_error e.observers s.deliveries s.beforeFirst hJe hD
        · intro q hq hlive ob hob hbf
          exact Epres_extend e.observers _ s.deliveries ob.tok hJe
            (hE q (mem_alistDelete s.rooms id q hq) hlive ob hob hbf)
      | false =>
        rw [step_fetchReject_unconnected s id e hl hp hc]
        refine ⟨hA, hB, ?_, ?_, ?_, hD, ?_⟩
        · intro q hq ob hob
          rcases mem_alistSet s.rooms id _ q hq with hq2 | hq2
          · rw [hq2] at hob
            exact hCe ob hob
          · exact hC q hq2 ob hob
        · intro q hq
          rcases mem_alistSet s.rooms id _ q hq with hq2 | hq2
          · rw [hq2]
            exact hJe
          · exact hJ q hq2
        · intro q hq hlive
          rcases mem_alistSet s.rooms id _ q hq with hq2 | hq2
          · exfalso
            rw [hq2] at hlive
            have hlive2 : e.phase = Phase.live := hlive
            rw [hp] at hlive2
            cases hlive2
          · exact hH q hq2 hlive
        · intro q hq hlive ob hob hbf
          rcases mem_alistSet s.rooms id _ q hq with hq2 | hq2
          · exfalso
            rw [hq2] at hlive
            have hlive2 : e.phase = Phase.live := hlive
            rw [hp] at hlive2
            cases hlive2
          · exact hE q hq2 hlive ob hob hbf

lemma c6inv_refetchResolve (s : AdapterState) (id : String) (r : SDKRoom)
    (h : C6Inv s) : C6Inv (step s (Ev.refetchResolve id r)) := by
  obtain ⟨hA, hB, hC, hJ, hH, hD, hE⟩ := h
  cases hl : alistLookup s.rooms id with
  | none =>
    rw [step_refetchResolve_none s id r hl]
    exact ⟨hA, hB, hC, hJ, hH, hD, hE⟩
  | some e =>
    have hmem : (id, e) ∈ s.rooms := alistLookup_mem s.rooms id e hl
    have hCe : ∀ ob ∈ e.observers, ob.tok ∈ s.used := hC (id, e) hmem
    have hJe : (e.observers.map Obs.tok).Nodup := hJ (id, e) hmem
    by_cases hcond : e.phase = Phase.live ∧ 0 < e.pendingRefetches
    · rw [step_refetchResolve_live s id r e hl hcond.1 hcond.2]
      refine ⟨hA, ?_, ?_, ?_, ?_, ?_, ?_⟩
      · intro p hp2
        rcases deliverAll_fst_mem _ _ _ p hp2 with hp3 | hp3
        · obtain ⟨ob, hob, hobtok⟩ := List.mem_map.mp hp3
          exact hobtok ▸ hCe ob hob
        · exact hB p hp3
      · intro q hq ob hob
        rcases mem_alistSet s.rooms id _ q hq with hq2 | hq2
        · rw [hq2] at hob
          exact hCe ob hob
        · exact hC q hq2 ob hob
      · intro q hq
        rcases mem_alistSet s.rooms id _ q hq with hq2 | hq2
        · rw [hq2]
          exact hJe
        · exact hJ q hq2
      · intro q hq hlive
        rcases mem_alistSet s.rooms id _ q hq with hq2 | hq2
        · rw [hq2]
          rfl
        · exact hH q hq2 hlive
      · intro t ht
        by_cases hmm : t ∈ e.observers.map Obs.tok
        · obtain ⟨ob, hob, hobtok⟩ := List.mem_map.mp hmm
          have hseen : seenInitialB (chronOf s.deliveries t) = true := by
            rw [← hobtok]
            exact hE (id, e) hmem hcond.1 ob hob (hobtok ▸ ht)
          show initBeforeUpdateB (chronOf (deliverAll e.observers
            (Delivery.value { origin := Origin.update, room := fetchRoom r })
            s.deliveries) t) = true
          rw [chronOf_deliverAll_mem e.observers _ s.deliveries t hJe hmm]
          exact initBeforeUpdateB_append_update _ _ hseen (hD t ht)
        · show initBeforeUpdateB (chronOf (deliverAll e.observers
            (Delivery.value { origin := Origin.update, room := fetchRoom r })
            s.deliveries) t) = true
          rw [chronOf_deliverAll_not_mem e.observers _ s.deliveries t hmm]
          exact hD t ht
      · intro q hq hlive ob hob hbf
        rcases mem_alistSet s.rooms id _ q hq with hq2 | hq2
        · rw [hq2] at hob
          exact Epres_extend e.observers _ s.deliveries ob.tok hJe
            (hE (id, e) hmem hcond.1 ob hob hbf)
        · exact Epres_extend e.observers _ s.deliveries ob.tok hJe
            (hE q hq2 hlive ob hob hbf)
    · rw [step_refetchResolve_skip s id r e hl hcond]
      exact ⟨hA, hB, hC, hJ, hH, hD, hE⟩

lemma roomUpdatedFold_c6 (ev : RawRoomEvent) (used bf : List Nat) :
    ∀ (rs : List (String × RoomEntry)) (g : CallLog)
      (ds : List (Nat × Delivery)),
      (∀ p ∈ ds, p.1 ∈ used) →
      (∀ t ∈ bf, initBeforeUpdateB (chronOf ds t) = true) →
      (∀ q ∈ rs, ∀ ob ∈ (q.2 : RoomEntry).observers, ob.tok ∈ used) →
      (∀ q ∈ rs, (((q.2 : RoomEntry).observers.map Obs.tok)).Nodup) →
      (∀ p ∈ (roomUpdatedFold ev rs g ds).2.2, p.1 ∈ used) ∧
      (∀ t ∈ bf,
        initBeforeUpdateB (chronOf (roomUpdatedFold ev rs g ds).2.2 t) = true) ∧
      (∀ t, ∃ l, chronOf (roomUpdatedFold ev rs g ds).2.2 t
        = chronOf ds t ++ l) ∧
      (∀ q ∈ (roomUpdatedFold ev rs g ds).1, ∃ e2 : RoomEntry,
        (q.1, e2) ∈ rs ∧ (q.2 : RoomEntry).observers = e2.observers ∧
        (q.2 : RoomEntry).phase = e2.phase ∧
        (q.2 : RoomEntry).replay = e2.replay) := by
  intro rs
  induction rs with
  | nil =>
    intro g ds hB hD _ _
    exact ⟨hB, hD, fun t => ⟨[], (List.append_nil _).symm⟩,
      fun q hq => absurd hq (List.not_mem_nil _)⟩
  | cons p rest ih =>
    intro g ds hB hD hC hJ
    obtain ⟨id, e⟩ := p
    have hCrest : ∀ q ∈ rest, ∀ ob ∈ (q.2 : RoomEntry).observers,
        ob.tok ∈ used := fun q hq => hC q (List.mem_cons_of_mem _ hq)
    have hJrest : ∀ q ∈ rest, (((q.2 : RoomEntry).observers.map Obs.tok)).Nodup :=
      fun q hq => hJ q (List.mem_cons_of_mem _ hq)
    have hCe : ∀ ob ∈ e.observers, ob.tok ∈ used :=
      hC (id, e) (List.mem_cons_self _ _)
    have hJe : (e.observers.map Obs.tok).Nodup :=
      hJ (id, e) (List.mem_cons_self _ _)
    by_cases hlive : e.connected = true ∧ e.phase = Phase.live
    · cases hdata : ev.data with
      | none =>
        have hfold : roomUpdatedFold ev ((id, e) :: rest) g ds
            = roomUpdatedFold ev rest (stopListeningToRoomUpdates g)
                (deliverAll e.observers Delivery.error ds) := by
          simp only [roomUpdatedFold, if_pos hlive, hdata]
        rw [hfold]
        have hB1 : ∀ p2 ∈ deliverAll e.observers Delivery.error ds,
            p2.1 ∈ used := by
          intro p2 hp2
          rcases deliverAll_fst_mem _ _ _ p2 hp2 with hp3 | hp3
          · obtain ⟨ob, hob, hobtok⟩ := List.mem_map.mp hp3
            exact hobtok ▸ hCe ob hob
          · exact hB p2 hp3
        have hD1 := Dpres_error e.observers ds bf hJe hD
        obtain ⟨ih1, ih2, ih3, ih4⟩ :=
          ih (stopListeningToRoomUpdates g)
            (deliverAll e.observers Delivery.error ds) hB1 hD1 hCrest hJrest
        refine ⟨ih1, ih2, ?_, ?_⟩
        · intro t
          obtain ⟨l, hl⟩ := ih3 t
          by_cases hm : t ∈ e.observers.map Obs.tok
          · refine ⟨[Delivery.error] ++ l, ?_⟩
            rw [hl, chronOf_deliverAll_mem e.observers _ ds t hJe hm,
              List.append_assoc]
          · refine ⟨l, ?_⟩
            rw [hl, chronOf_deliverAll_not_mem e.observers _ ds t hm]
        · intro q hq
          obtain ⟨e2, he2, hobs, hph, hre⟩ := ih4 q hq
          exact ⟨e2, List.mem_cons_of_mem _ he2, hobs, hph, hre⟩
      | some ref =>
        by_cases hid : ref.id = some id
        · have hfold : roomUpdatedFold ev ((id, e) :: rest) g ds
              = ((id, { e with pendingRefetches := e.pendingRefetches + 1 })
                  :: (roomUpdatedFold ev rest
                    { g with calls := CallKind.fetch id :: g.calls } ds).1,
                 (roomUpdatedFold ev rest
                    { g with calls := CallKind.fetch id :: g.calls } ds).2.1,
                 (roomUpdatedFold ev rest
                    { g with calls := CallKind.fetch id :: g.calls } ds).2.2) := by
            simp only [roomUpdatedFold, if_pos hlive, hdata, if_pos hid]
          rw [hfold]
          obtain ⟨ih1, ih2, ih3, ih4⟩ :=
            ih { g with calls := CallKind.fetch id :: g.calls } ds
              hB hD hCrest hJrest
          refine ⟨ih1, ih2, ih3, ?_⟩
          · intro q hq
            rcases List.mem_cons.mp hq with hq2 | hq2
            · subst hq2
              exact ⟨e, List.mem_cons_self _ _, rfl, rfl, rfl⟩
            · obtain ⟨e2, he2, hobs, hph, hre⟩ := ih4 q hq2
              exact ⟨e2, List.mem_cons_of_mem _ he2, hobs, hph, hre⟩
        · have hfold : roomUpdatedFold ev ((id, e) :: rest) g ds
              = ((id, e) :: (roomUpdatedFold ev rest g ds).1,
                 (roomUpdatedFold ev rest g ds).2.1,
                 (roomUpdatedFold ev rest g ds).2.2) := by
            simp only [roomUpdatedFold, if_pos hlive, hdata, if_neg hid]
          rw [hfold]
          obtain ⟨ih1, ih2, ih3, ih4⟩ := ih g ds hB hD hCrest hJrest
          refine ⟨ih1, ih2, ih3, ?_⟩
          · intro q hq
            rcases List.mem_cons.mp hq with hq2 | hq2
            · subst hq2
              exact ⟨e, List.mem_cons_self _ _, rfl, rfl, rfl⟩
            · obtain ⟨e2, he2, hobs, hph, hre⟩ := ih4 q hq2
              exact ⟨e2, List.mem_cons_of_mem _ he2, hobs, hph, hre⟩
    · have hfold : roomUpdatedFold ev ((id, e) :: rest) g ds
          = ((id, e) :: (roomUpdatedFold ev rest g ds).1,
             (roomUpdatedFold ev rest g ds).2.1,
             (roomUpdatedFold ev rest g ds).2.2) := by
        simp only [roomUpdatedFold, if_neg hlive]
      rw [hfold]
      obtain ⟨ih1, ih2, ih3, ih4⟩ := ih g ds hB hD hCrest hJrest
      refine ⟨ih1, ih2, ih3, ?_⟩
      · intro q hq
        rcases List.mem_cons.mp hq with hq2 | hq2
        · subst hq2
          exact ⟨e, List.mem_cons_self _ _, rfl, rfl, rfl⟩
        · obtain ⟨e2, he2, hobs, hph, hre⟩ := ih4 q hq2
          exact ⟨e2, List.mem_cons_of_mem _ he2, hobs, hph, hre⟩

lemma c6inv_roomUpdated (s : AdapterState) (ev : RawRoomEvent)
    (h : C6Inv s) : C6Inv (step s (Ev.roomUpdated ev)) := by
  obtain ⟨hA, hB, hC, hJ, hH, hD, hE⟩ := h
  rw [step_roomUpdated_eq]
  obtain ⟨f1, f2, f3, f4⟩ :=
    roomUpdatedFold_c6 ev s.used s.beforeFirst s.rooms s.gate s.deliveries
      hB hD hC hJ
  refine ⟨hA, f1, ?_, ?_, ?_, f2, ?_⟩
  · intro q hq ob hob
    obtain ⟨e2, he2, hobs, _, _⟩ := f4 q hq
    rw [hobs] at hob
    exact hC (q.1, e2) he2 ob hob
  · intro q hq
    obtain ⟨e2, he2, hobs, _, _⟩ := f4 q hq
    rw [hobs]
    exact hJ (q.1, e2) he2
  · intro q hq hlive
    obtain ⟨e2, he2, _, hph, hre⟩ := f4 q hq
    rw [hre]
    exact hH (q.1, e2) he2 (hph ▸ hlive)
  · intro q hq hlive ob hob hbf
    obtain ⟨e2, he2, hobs, hph, _⟩ := f4 q hq
    rw [hobs] at hob
    obtain ⟨l, hl⟩ := f3 ob.tok
    show seenInitialB
      (chronOf (roomUpdatedFold ev s.rooms s.gate s.deliveries).2.2 ob.tok)
        = true
    rw [hl]
    exact seenInitialB_append_left _ l
      (hE (q.1, e2) he2 (hph ▸ hlive) ob hob hbf)

lemma connectEntry_used (s : AdapterState) (id : String) :
    (connectEntry s id).used = s.used := by
  cases hl : alistLookup s.rooms id with
  | none => simp [connectEntry, hl]
  | some e =>
    cases hfr : e.fetchResult with
    | none => simp [connectEntry, hl, hfr]
    | some fo =>
      cases fo with
      | ok r => simp [connectEntry, hl, hfr]
      | failed => simp [connectEntry, hl, hfr, finalizeEntry]

lemma step_used (s : AdapterState) (ev : Ev) (t : Nat)
    (ht : t ∈ (step s ev).used) : t ∈ s.used ∨ t ∈ subTokens [ev] := by
  cases ev with
  | getRoomCall id =>
    cases hl : alistLookup s.rooms id with
    | some e => rw [step_getRoom_hit s id e hl] at ht; exact Or.inl ht
    | none => rw [step_getRoom_miss s id hl] at ht; exact Or.inl ht
  | subscribe id tok =>
    cases hl : alistLookup s.rooms id with
    | none => rw [step_subscribe_none s id tok hl] at ht; exact Or.inl ht
    | some e =>
      have hused : (step s (Ev.subscribe id tok)).used = tok :: s.used := by
        simp only [step, stepSubscribe, hl]
        split
        · rfl
        · rw [connectEntry_used]
      rw [hused] at ht
      rcases List.mem_cons.mp ht with hc | hc
      · right
        rw [hc]
        exact List.mem_cons_self _ _
      · exact Or.inl hc
  | unsubscribe id tok =>
    cases hl : alistLookup s.rooms id with
    | none => rw [step_unsubscribe_none s id tok hl] at ht; exact Or.inl ht
    | some e =>
      by_cases hm : tok ∈ e.observers.map Obs.tok
      · cases hcase : ((e.observers.filter fun o => !decide (o.tok = tok)).isEmpty
            && e.connected) with
        | true =>
          rw [step_unsubscribe_last s id tok e hl hm hcase] at ht
          exact Or.inl ht
        | false =>
          rw [step_unsubscribe_stay s id tok e hl hm hcase] at ht
          exact Or.inl ht
      · rw [step_unsubscribe_not_mem s id tok e hl hm] at ht
        exact Or.inl ht
  | fetchResolve id r =>
    cases hl : alistLookup s.rooms id with
    | none => rw [step_fetchResolve_none s id r hl] at ht; exact Or.inl ht
    | some e =>
      cases hp : e.phase with
      | live =>
        rw [step_fetchResolve_notFetching s id r e hl hp] at ht
        exact Or.inl ht
      | fetching =>
        cases hc : e.connected with
        | true =>
          rw [step_fetchResolve_connected s id r e hl hp hc] at ht
          exact Or.inl ht
        | false =>
          rw [step_fetchResolve_unconnected s id r e hl hp hc] at ht
          exact Or.inl ht
  | fetchReject id =>
    cases hl : alistLookup s.rooms id with
    | none => rw [step_fetchReject_none s id hl] at ht; exact Or.inl ht
    | some e =>
      cases hp : e.phase with
      | live =>
        rw [step_fetchReject_notFetching s id e hl hp] at ht
        exact Or.inl ht
      | fetching =>
        cases hc : e.connected with
        | true =>
          rw [step_fetchReject_connected s id e hl hp hc] at ht
          exact Or.inl ht
        | false =>
          rw [step_fetchReject_unconnected s id e hl hp hc] at ht
          exact Or.inl ht
  | roomUpdated ev2 =>
    rw [step_roomUpdated_eq] at ht
    exact Or.inl ht
  | refetchResolve id r =>
    cases hl : alistLookup s.rooms id with
    | none => rw [step_refetchResolve_none s id r hl] at ht; exact Or.inl ht
    | some e =>
      by_cases hcond : e.phase = Phase.live ∧ 0 < e.pendingRefetches
      · rw [step_refetchResolve_live s id r e hl hcond.1 hcond.2] at ht
        exact Or.inl ht
      · rw [step_refetchResolve_skip s id r e hl hcond] at ht
        exact Or.inl ht

lemma subTokens_cons_sub (ev : Ev) (rest : List Ev) (t : Nat)
    (ht : t ∈ subTokens rest) : t ∈ subTokens (ev :: rest) := by
  cases ev <;> first
    | exact ht
    | exact List.mem_cons_of_mem _ ht

lemma c6inv_step (s : AdapterState) (ev : Ev) (h : C6Inv s)
    (hfresh : ∀ id tok, ev = Ev.subscribe id tok → tok ∉ s.used) :
    C6Inv (step s ev) := by
  cases ev with
  | getRoomCall id => exact c6inv_getRoom s id h
  | subscribe id tok =>
    exact c6inv_subscribe s id tok h (hfresh id tok rfl)
  | unsubscribe id tok => exact c6inv_unsubscribe s id tok h
  | fetchResolve id r => exact c6inv_fetchResolve s id r h
  | fetchReject id => exact c6inv_fetchReject s id h
  | roomUpdated ev2 => exact c6inv_roomUpdated s ev2 h
  | refetchResolve id r => exact c6inv_refetchResolve s id r h

lemma c6inv_runFrom :
    ∀ (evs : List Ev) (s : AdapterState), C6Inv s →
      (subTokens evs).Nodup →
      (∀ t ∈ subTokens evs, t ∉ s.used) →
      C6Inv (runFrom s evs) := by
  intro evs
  induction evs with
  | nil => intro s h _ _; exact h
  | cons ev rest ih =>
    intro s h hnd hfr
    rw [runFrom_cons]
    have hstep : C6Inv (step s ev) := by
      apply c6inv_step s ev h
      intro id tok hev
      subst hev
      exact hfr tok (List.mem_cons_self _ _)
    apply ih (step s ev) hstep
    · cases ev with
      | subscribe id tok => exact (List.nodup_cons.mp hnd).2
      | getRoomCall id => exact hnd
      | unsubscribe id tok => exact hnd
      | fetchResolve id r => exact hnd
      | fetchReject id => exact hnd
      | roomUpdated ev2 => exact hnd
      | refetchResolve id r => exact hnd
    · intro t htr htused
      rcases step_used s ev t htused with hc | hc
      · exact hfr t (subTokens_cons_sub ev rest t htr) hc
      · cases ev with
        | subscribe id tok =>
          have htok : t = tok := by
            rcases List.mem_cons.mp hc with hc2 | hc2
            · exact hc2
            · cases hc2
          have : tok ∈ subTokens (Ev.subscribe id tok :: rest) →
              (subTokens (Ev.subscribe id tok :: rest)).Nodup → False := by
            intro _ hnd2
            have := (List.nodup_cons.mp hnd2).1
            exact this (htok ▸ htr)
          exact this (List.mem_cons_self _ _) hnd
        | getRoomCall id => cases hc
        | unsubscribe id tok => cases hc
        | fetchResolve id r => cases hc
        | fetchReject id => cases hc
        | roomUpdated ev2 => cases hc
        | refetchResolve id r => cases hc

/-- C6 (amended): along any event trace in which every subscription uses a
fresh token, every subscription that attached before its entry generation's
first snapshot was produced never observes an update-derived snapshot before
the initial one.  (Per the counterexample, a subscription attaching later
first receives the replayed latest snapshot, which can be update-derived, so
the unrestricted claim fails.) -/
theorem before_first_subscriptions_see_initial_first (evs : List Ev)
    (hnd : (subTokens evs).Nodup) :
    ∀ t ∈ (run evs).beforeFirst,
      initBeforeUpdateB (chron (run evs) t) = true := by
  have hinv : C6Inv (run evs) := by
    apply c6inv_runFrom evs initState
    · refine ⟨?_, ?_, ?_, ?_, ?_, ?_, ?_⟩ <;>
        intro x hx <;> cases hx
    · exact hnd
    · intro t _ hused
      cases hused
  exact hinv.2.2.2.2.2.1

/-- Witness for the amended C6 theorem: on the counterexample trace itself,
subscription `0` attached before the first snapshot and indeed observes the
initial snapshot before the update-derived one. -/
theorem before_first_subscriptions_see_initial_first_witness :
    initBeforeUpdateB (chron (run c6trace) 0) = true :=
  before_first_subscriptions_see_initial_first c6trace (by decide) 0 (by decide)
